import Mathlib

/-!
Shallow embedding of the melbourne_econ event aggregator's core:
the event filter pipeline and list-view grouping from `src/App.js`,
the iCalendar generator from `src/utils/icsGenerator.js`, and — modelled
from the specification, since their files are not part of the sources at
hand — the ICS parser (`src/utils/icsParser.js`) and the fuzzy text
matcher (`src/utils/fuzzySearch.js`).

JavaScript strings are modelled as `List Char`, timestamps (JS `Date`
values) as `Int` milliseconds since the Unix epoch, and the viewer's
local time zone as a fixed UTC offset `off` in milliseconds
(local wall-clock time of the instant `t` is `t + off`).
-/

namespace MelbEcon

/-! ## Text utilities (JS string operations on ASCII text) -/

/-- `String.prototype.toLowerCase` restricted to ASCII: `Char.toLower`
maps `A`–`Z` (code points 65–90) to `a`–`z` and fixes everything else. -/
def lower (s : List Char) : List Char := s.map Char.toLower

/-- Characters removed by `String.prototype.trim`. -/
def isWS (c : Char) : Bool := c == ' ' || c == '\t' || c == '\n' || c == '\r'

/-- `String.prototype.trim`: strip leading and trailing whitespace. -/
def trimChars (s : List Char) : List Char :=
  ((s.dropWhile isWS).reverse.dropWhile isWS).reverse

/-- `String.prototype.startsWith` on character lists. -/
def startsWithL : List Char → List Char → Bool
  | _, [] => true
  | [], _ :: _ => false
  | a :: as, b :: bs => a == b && startsWithL as bs

/-- `String.prototype.includes` on character lists: `n` occurs as a
contiguous substring of `hay`. -/
def hasSubstr : List Char → List Char → Bool
  | [], n => n.isEmpty
  | a :: as, n => startsWithL (a :: as) n || hasSubstr as n

/-- Modelled from the spec: `fuzzyIncludes(text, query)` from the missing
`src/utils/fuzzySearch.js`.  "Fuzzy matching succeeds when all characters of
the (lower-cased, trimmed) query appear in the target text in the same
relative order, not necessarily contiguous (a subsequence test)." -/
def fuzzyIncludes : List Char → List Char → Bool
  | _, [] => true
  | [], _ :: _ => false
  | t :: ts, q :: qs =>
    if t == q then fuzzyIncludes ts qs else fuzzyIncludes ts (q :: qs)

/-! ## Data model -/

/-- An event record as produced by the parser and consumed by `App.js`.
Absent optional text fields are the empty string (`App.js` reads
`event.description || ""`); the JS field `end` is called `endTime` here
because `end` is a reserved word in Lean. -/
structure Event where
  uid : String
  source : String
  summary : String
  description : String
  location : String
  start : Int
  endTime : Option Int
deriving DecidableEq

/-- The date-filter modes of `App.js` (`dateFilter` state). -/
inductive DateFilter
  | upcoming
  | past
  | all
  | custom
deriving DecidableEq

/-- A calendar date, standing for the `YYYY-MM-DD` strings of the two
custom-range date inputs. -/
structure CivilDate where
  year : Int
  month : Int
  day : Int
deriving DecidableEq

/-- The filter criteria consumed by the `filteredEvents` memo in `App.js`.
`selectedSources` and `selectedTags` model the JS `Set` objects by lists of
their members; `customStartDate = none` models the empty string (unset). -/
structure Criteria where
  selectedSources : List String
  searchTerm : String
  selectedTags : List String
  dateFilter : DateFilter
  customStartDate : Option CivilDate
  customEndDate : Option CivilDate

/-! ## Calendar arithmetic

Civil-date conversion as performed by the JS `Date` built-ins
(proleptic Gregorian), via Howard Hinnant's algorithms.  All divisions are
Euclidean (`ediv`), which agrees with mathematical floor division here
because every divisor is positive. -/

def msPerDay : Int := 86400000

/-- Days since 1970-01-01 of a civil date (as computed by
`Date.UTC(y, m - 1, d) / 86400000` or `new Date("YYYY-MM-DD")`). -/
def daysFromCivil (c : CivilDate) : Int :=
  let y := if c.month ≤ 2 then c.year - 1 else c.year
  let era := y / 400
  let yoe := y - era * 400
  let mp := if 2 < c.month then c.month - 3 else c.month + 9
  let doy := (153 * mp + 2) / 5 + c.day - 1
  let doe := yoe * 365 + yoe / 4 - yoe / 100 + doy
  era * 146097 + doe - 719468

/-- Civil date of a day number (as computed by `getUTCFullYear` /
`getUTCMonth() + 1` / `getUTCDate`); months are 1–12.  The year within the
400-year era is found by the classic century/quad-year decomposition. -/
def civilFromDays (z0 : Int) : CivilDate :=
  let z := z0 + 719468
  let era := z / 146097
  let doe := z - era * 146097
  let cent := (4 * doe + 3) / 146097
  let dc := doe - 146097 * cent / 4
  let yc := (4 * dc + 3) / 1461
  let dy := dc - 1461 * yc / 4
  let yoe := 100 * cent + yc
  let y := yoe + era * 400
  let mp := (5 * dy + 2) / 153
  let d := dy - (153 * mp + 2) / 5 + 1
  let m := if mp < 10 then mp + 3 else mp - 9
  ⟨(if m ≤ 2 then y + 1 else y), m, d⟩

/-- UTC instant of `new Date("YYYY-MM-DD")`: UTC midnight of that date. -/
def civilToMs (c : CivilDate) : Int := daysFromCivil c * msPerDay

/-- Local calendar-day number of instant `t` under UTC offset `off`. -/
def localDay (off t : Int) : Int := (t + off) / msPerDay

/-- `new Date(now.getFullYear(), now.getMonth(), now.getDate())`:
the UTC instant at which the local day containing `t` begins. -/
def startOfLocalDay (off t : Int) : Int := localDay off t * msPerDay - off

/-- `d.setHours(23, 59, 59)`: move `t` to 23:59:59 of its local day,
keeping the milliseconds field (JS `setHours` with three arguments leaves
milliseconds untouched). -/
def setHours235959 (off t : Int) : Int :=
  startOfLocalDay off t + 86399000 + (t + off) % 1000

/-! ## The filter pipeline (`filteredEvents` in `src/App.js`) -/

/-- Source stage: `selectedSources.has(event.source)`. -/
def sourceKeep (sel : List String) (e : Event) : Bool := sel.contains e.source

/-- Text-search stage (`searchMatch` in `App.js`); `q` is the processed
query `searchTerm.trim().toLowerCase()`.  The event text is the summary and
the description joined by a single space. -/
def searchKeep (q : List Char) (e : Event) : Bool :=
  let summaryLower := lower e.summary.data
  let descriptionLower := lower e.description.data
  let eventText := summaryLower ++ ' ' :: descriptionLower
  q.isEmpty || fuzzyIncludes eventText q
    || hasSubstr summaryLower (lower q) || hasSubstr descriptionLower (lower q)

/-- Tag stage (`tagMatch` in `App.js`): no tag selected, or some selected
tag occurs verbatim in the summary. -/
def tagKeep (tags : List String) (e : Event) : Bool :=
  tags.isEmpty || tags.any (fun t => hasSubstr e.summary.data t.data)

/-- The single `events.filter(...)` pass of `App.js` combining the source,
text-search and tag stages. -/
def stage12 (c : Criteria) (evs : List Event) : List Event :=
  let q := lower (trimChars c.searchTerm.data)
  evs.filter (fun e =>
    sourceKeep c.selectedSources e &&
      (searchKeep q e && tagKeep c.selectedTags e))

/-- The date-range stage (`switch (dateFilter)` in `App.js`). -/
def applyDateFilter (off now : Int) (c : Criteria) (l : List Event) :
    List Event :=
  match c.dateFilter with
  | .past => l.filter (fun e => e.start < startOfLocalDay off now)
  | .upcoming => l.filter (fun e => startOfLocalDay off now ≤ e.start)
  | .custom =>
    let l1 := match c.customStartDate with
      | none => l
      | some d => l.filter (fun e => civilToMs d ≤ e.start)
    match c.customEndDate with
    | none => l1
    | some d => l1.filter (fun e => e.start ≤ setHours235959 off (civilToMs d))
  | .all => l

/-- Stable insertion used by `sortBy`. -/
def insertBy {α : Type _} (le : α → α → Bool) (a : α) : List α → List α
  | [] => [a]
  | b :: bs => if le a b then a :: b :: bs else b :: insertBy le a bs

/-- Stable insertion sort.  `Array.prototype.sort` is required to be stable,
and a stable sort's output is determined uniquely by the comparator, so this
models `filtered.sort((a, b) => a.start - b.start)`. -/
def sortBy {α : Type _} (le : α → α → Bool) : List α → List α
  | [] => []
  | a :: as => insertBy le a (sortBy le as)

/-- The comparator `(a, b) => a.start - b.start` as a total preorder test. -/
def leStart (a b : Event) : Bool := a.start ≤ b.start

/-- The whole `filteredEvents` memo of `src/App.js`: source/search/tag
filter, then the date-range filter, then the stable sort on `start`. -/
def filteredEvents (off now : Int) (c : Criteria) (events : List Event) :
    List Event :=
  sortBy leStart (applyDateFilter off now c (stage12 c events))

/-! ## The date stage as a single predicate -/

/-- The date-range stage's acceptance predicate. -/
def datePred (off now : Int) (c : Criteria) (e : Event) : Bool :=
  match c.dateFilter with
  | .past => e.start < startOfLocalDay off now
  | .upcoming => startOfLocalDay off now ≤ e.start
  | .custom =>
    (match c.customStartDate with
      | none => true
      | some d => (civilToMs d ≤ e.start : Bool)) &&
    (match c.customEndDate with
      | none => true
      | some d => (e.start ≤ setHours235959 off (civilToMs d) : Bool))
  | .all => true


/-- The acceptance condition of claim C1 exactly as the claim words it: the
trimmed query is empty, or the lower-cased query is a subsequence of the
lower-cased concatenation of summary and description (no separator), or a
contiguous substring of the lower-cased summary alone or of the lower-cased
description alone. -/
def searchClaimC1 (searchTerm : String) (e : Event) : Prop :=
  lower (trimChars searchTerm.data) = [] ∨
    List.Sublist (lower (trimChars searchTerm.data))
      (lower e.summary.data ++ lower e.description.data) ∨
    (∃ pre post, lower e.summary.data =
      pre ++ lower (trimChars searchTerm.data) ++ post) ∨
    (∃ pre post, lower e.description.data =
      pre ++ lower (trimChars searchTerm.data) ++ post)

/-- An event with summary `"a"` and description `"b"`. -/
def evC1 : Event := ⟨"", "Monash EBS", "a", "b", "", 0, none⟩

/-- An event starting at 12:00 UTC on 2025-01-10, which is 07:00 local on
2025-01-10 for a viewer at UTC-5. -/
def evC3 : Event :=
  ⟨"", "Monash EBS", "Talk", "", "", civilToMs ⟨2025, 1, 10⟩ + 43200000, none⟩


/-! ## List-view grouping (`groupedListEvents` in `src/App.js`) -/

/-- Identifier of an event's month section: the local (year, month) pair,
the data underlying the code's `month-YYYY-MM` id string. -/
def monthIdOf (off : Int) (e : Event) : Int × Int :=
  let c := civilFromDays (localDay off e.start)
  (c.year, c.month)

/-- Day of week of a day number (JS `getDay`, 0 = Sunday; day 0,
1970-01-01, was a Thursday). -/
def dayOfWeek (z : Int) : Int := (z + 4) % 7

/-- Day number of the Sunday starting the local week of `e` (the grouping's
`startOfWeek` helper: midnight, then `setDate(getDate() - getDay())`). -/
def weekStartOf (off : Int) (e : Event) : Int :=
  localDay off e.start - dayOfWeek (localDay off e.start)

/-- Identifier of an event's week section.  The code's id string is
`week-${monthId}-${isoDate(wkStart)}`: it embeds the month id, so one
Sunday-start week gets different identifiers in different months. -/
def weekIdOf (off : Int) (e : Event) : (Int × Int) × Int :=
  (monthIdOf off e, weekStartOf off e)

/-- Identifier of an event's day section: the local day number, the data
underlying the code's `day-YYYY-MM-DD` id string (the ISO date string is in
bijection with the day number). -/
def dayIdOf (off : Int) (e : Event) : Int := localDay off e.start

/-- The key of an event record:
`event.id || event.uid || source::timestamp::summary` (parsed events carry
no `id` field, and an absent `uid` is the empty string, which is falsy). -/
def eventIdOf (e : Event) : String :=
  if e.uid = "" then e.source ++ "::" ++ toString e.start ++ "::" ++ e.summary
  else e.uid

/-- A record of the flat list-view sequence: section markers interleaved
with event records. -/
inductive GroupRec
  | monthRec (id : Int × Int)
  | weekRec (id : (Int × Int) × Int)
  | dayRec (id : Int)
  | eventRec (id : String) (data : Event)
deriving DecidableEq

/-- The `currentMonthId` / `currentWeekId` / `currentDayId` loop state of
`groupedListEvents` (`none` models the JS `null`). -/
structure GState where
  curMonth : Option (Int × Int)
  curWeek : Option ((Int × Int) × Int)
  curDay : Option Int
deriving DecidableEq

/-- One iteration of the `filteredEvents.forEach` body: emit a month marker
when the month id changed (resetting week and day tracking), then a week
marker when the week id differs from the tracked one, then a day marker
likewise, then the event record itself. -/
def stepGroup (off : Int) (st : GState) (e : Event) :
    GState × List GroupRec :=
  let mId := monthIdOf off e
  let wId := weekIdOf off e
  let dId := dayIdOf off e
  let p1 := if some mId ≠ st.curMonth then
      ((⟨some mId, none, none⟩ : GState), [GroupRec.monthRec mId])
    else (st, [])
  let p2 := if some wId ≠ p1.1.curWeek then
      ((⟨p1.1.curMonth, some wId, none⟩ : GState),
        p1.2 ++ [GroupRec.weekRec wId])
    else p1
  let p3 := if some dId ≠ p2.1.curDay then
      ((⟨p2.1.curMonth, p2.1.curWeek, some dId⟩ : GState),
        p2.2 ++ [GroupRec.dayRec dId])
    else p2
  (p3.1, p3.2 ++ [GroupRec.eventRec (eventIdOf e) e])

/-- The `forEach` loop of `groupedListEvents`. -/
def groupGo (off : Int) (st : GState) : List Event → List GroupRec
  | [] => []
  | e :: rest =>
    let p := stepGroup off st e
    p.2 ++ groupGo off p.1 rest

/-- The `groupedListEvents` memo of `src/App.js`. -/
def groupedListEvents (off : Int) (l : List Event) : List GroupRec :=
  groupGo off ⟨none, none, none⟩ l

/-- The markers emitted before event `e` when the previously processed event
is `prev` (`none` at the head of the list): one marker per identifier that
differs from the previous event's. -/
def markersFor (off : Int) (prev : Option Event) (e : Event) :
    List GroupRec :=
  match prev with
  | none => [GroupRec.monthRec (monthIdOf off e),
      GroupRec.weekRec (weekIdOf off e), GroupRec.dayRec (dayIdOf off e)]
  | some p =>
    (if monthIdOf off e ≠ monthIdOf off p then
        [GroupRec.monthRec (monthIdOf off e)] else []) ++
    (if weekIdOf off e ≠ weekIdOf off p then
        [GroupRec.weekRec (weekIdOf off e)] else []) ++
    (if dayIdOf off e ≠ dayIdOf off p then
        [GroupRec.dayRec (dayIdOf off e)] else [])

/-- Reference one-pass derivation that compares each event's identifiers
with the previous event's only (no reset state). -/
def groupByPrev (off : Int) (prev : Option Event) :
    List Event → List GroupRec
  | [] => []
  | e :: rest =>
    markersFor off prev e ++
      GroupRec.eventRec (eventIdOf e) e :: groupByPrev off (some e) rest

/-- The list-sections derivation exactly as claim C7 words it: a marker of
each granularity is emitted iff the corresponding calendar unit — month,
Sunday-start week, day — of the current event differs from the previous
event's. -/
def groupClaimC7 (off : Int) (prev : Option Event) :
    List Event → List GroupRec
  | [] => []
  | e :: rest =>
    (match prev with
     | none => [GroupRec.monthRec (monthIdOf off e),
         GroupRec.weekRec (weekIdOf off e), GroupRec.dayRec (dayIdOf off e)]
     | some p =>
       (if monthIdOf off e ≠ monthIdOf off p then
           [GroupRec.monthRec (monthIdOf off e)] else []) ++
       (if weekStartOf off e ≠ weekStartOf off p then
           [GroupRec.weekRec (weekIdOf off e)] else []) ++
       (if dayIdOf off e ≠ dayIdOf off p then
           [GroupRec.dayRec (dayIdOf off e)] else [])) ++
      GroupRec.eventRec (eventIdOf e) e :: groupClaimC7 off (some e) rest

/-- Tracking the most recent marker of each granularity, check that at every
event record those markers carry exactly that event's identifiers. -/
def wellMarked (off : Int) : Option (Int × Int) →
    Option ((Int × Int) × Int) → Option Int → List GroupRec → Bool
  | _, _, _, [] => true
  | _, w, d, GroupRec.monthRec i :: rest => wellMarked off (some i) w d rest
  | m, _, d, GroupRec.weekRec i :: rest => wellMarked off m (some i) d rest
  | m, w, _, GroupRec.dayRec i :: rest => wellMarked off m w (some i) rest
  | m, w, d, GroupRec.eventRec _ e :: rest =>
    m == some (monthIdOf off e) && w == some (weekIdOf off e) &&
      d == some (dayIdOf off e) && wellMarked off m w d rest

/-- Extract the event of an event record. -/
def getEventData : GroupRec → Option Event
  | GroupRec.eventRec _ e => some e
  | _ => none

/-- Is this record a week marker? -/
def isWeekRec : GroupRec → Bool
  | GroupRec.weekRec _ => true
  | _ => false

/-- The tracker state corresponding to having just processed `prev`. -/
def stateOf (off : Int) : Option Event → GState
  | none => ⟨none, none, none⟩
  | some p =>
    ⟨some (monthIdOf off p), some (weekIdOf off p), some (dayIdOf off p)⟩

/-- An event on Friday 2025-01-31 (UTC midnight). -/
def evJan31 : Event :=
  ⟨"", "Monash EBS", "January talk", "", "", civilToMs ⟨2025, 1, 31⟩, none⟩

/-- An event on Saturday 2025-02-01, in the same Sunday-start week. -/
def evFeb01 : Event :=
  ⟨"", "Monash EBS", "February talk", "", "", civilToMs ⟨2025, 2, 1⟩, none⟩

/-! ## iCalendar serialization (`generateICS` in `src/utils/icsGenerator.js`) -/

/-- One character's escape in `generateICS`
(`.replace(/[\\,;]/g, "\\$&").replace(/\n/g, "\\n")`): backslash, comma and
semicolon get a leading backslash, a newline becomes the two characters
`\n`, everything else is unchanged. -/
def escChar (c : Char) : List Char :=
  if c = '\\' ∨ c = ',' ∨ c = ';' then ['\\', c]
  else if c = '\n' then ['\\', 'n']
  else [c]

/-- The `escape` helper of `generateICS`. -/
def escapeText : List Char → List Char
  | [] => []
  | c :: rest => escChar c ++ escapeText rest

/-- Modelled from the spec: iCalendar text unescaping from the missing
`src/utils/icsParser.js` — "`\n` → newline, `\,` → literal comma, `\;` →
literal semicolon, `\\` → literal backslash" — in one left-to-right pass;
an unrecognized escape is left as written. -/
def unescapeText : List Char → List Char
  | [] => []
  | c :: rest =>
    if c = '\\' then
      match rest with
      | [] => [c]
      | d :: rest2 =>
        if d = 'n' then '\n' :: unescapeText rest2
        else if d = ',' ∨ d = ';' ∨ d = '\\' then d :: unescapeText rest2
        else c :: d :: unescapeText rest2
    else c :: unescapeText rest

/-- The decimal digit character of `n < 10` (JS digit rendering). -/
def digitCh (n : Nat) : Char :=
  match n with
  | 0 => '0'
  | 1 => '1'
  | 2 => '2'
  | 3 => '3'
  | 4 => '4'
  | 5 => '5'
  | 6 => '6'
  | 7 => '7'
  | 8 => '8'
  | _ => '9'

/-- Two-digit zero-padded decimal (`String.prototype.padStart(2, "0")` as
`toISOString` uses for month, day, hour, minute, second). -/
def pad2 (n : Nat) : List Char := [digitCh (n / 10 % 10), digitCh (n % 10)]

/-- Four-digit year field of `toISOString`. -/
def pad4 (n : Nat) : List Char :=
  [digitCh (n / 1000 % 10), digitCh (n / 100 % 10),
    digitCh (n / 10 % 10), digitCh (n % 10)]

/-- Decimal digits, fuel-based so that it evaluates by kernel reduction;
the fuel `n + 1` always suffices. -/
def natDecAux : Nat → Nat → List Char
  | 0, _ => []
  | fuel + 1, n =>
    if n < 10 then [digitCh n]
    else natDecAux fuel (n / 10) ++ [digitCh (n % 10)]

/-- Decimal digits of a natural number (JS number-to-string, as in
`Date.now() + "@melb-econ-seminars"`). -/
def natDec (n : Nat) : List Char := natDecAux (n + 1) n

/-- `formatICSDate` from `icsGenerator.js`:
`date.toISOString().replace(/[-:]/g, "").split(".")[0] + "Z"` — the UTC
instant as `YYYYMMDDTHHMMSSZ`, truncating milliseconds. -/
def formatICSDate (t : Int) : List Char :=
  let c := civilFromDays (t / msPerDay)
  let tod := (t % msPerDay).toNat
  pad4 c.year.toNat ++ pad2 c.month.toNat ++ pad2 c.day.toNat ++
    'T' :: (pad2 (tod / 3600000) ++ pad2 (tod % 3600000 / 60000) ++
      pad2 (tod % 60000 / 1000)) ++ ['Z']

/-- The entries of the `icsContent` array of `generateICS`, before
`filter(Boolean)` drops the empty placeholders of absent fields.  `now`
models `Date.now()` (the UID fallback and the `DTSTAMP` stamp). -/
def genLines (now : Int) (e : Event) : List (List Char) :=
  [ "BEGIN:VCALENDAR".data,
    "VERSION:2.0".data,
    "PRODID:-//Melbourne Econ Seminars//EN".data,
    "CALSCALE:GREGORIAN".data,
    "BEGIN:VEVENT".data,
    "UID:".data ++ (if e.uid = "" then
      natDec now.toNat ++ "@melb-econ-seminars".data else e.uid.data),
    "DTSTAMP:".data ++ formatICSDate now,
    "DTSTART:".data ++ formatICSDate e.start,
    (match e.endTime with
      | none => []
      | some t2 => "DTEND:".data ++ formatICSDate t2),
    "SUMMARY:".data ++ escapeText e.summary.data,
    (if e.description = "" then []
      else "DESCRIPTION:".data ++ escapeText e.description.data),
    (if e.location = "" then []
      else "LOCATION:".data ++ escapeText e.location.data),
    "END:VEVENT".data,
    "END:VCALENDAR".data ]

/-- `.join("\r\n")`. -/
def joinCRLF : List (List Char) → List Char
  | [] => []
  | [l] => l
  | l :: ls => l ++ '\r' :: '\n' :: joinCRLF ls

/-- `generateICS` from `src/utils/icsGenerator.js`: the kept lines joined
with CRLF. -/
def generateICS (now : Int) (e : Event) : List Char :=
  joinCRLF ((genLines now e).filter (fun l => !l.isEmpty))

/-! ## The ICS parser, modelled from the spec
(`parseICS` of the missing `src/utils/icsParser.js`) -/

/-- Split at every `\n`. -/
def splitNL : List Char → List (List Char)
  | [] => [[]]
  | c :: rest =>
    if c = '\n' then [] :: splitNL rest
    else
      match splitNL rest with
      | [] => [[c]]
      | l :: ls => (c :: l) :: ls

/-- Remove one trailing `\r`, if present. -/
def dropCR (l : List Char) : List Char :=
  match l.reverse with
  | '\r' :: rest => rest.reverse
  | _ => l

/-- Modelled from the spec: "input text is split into logical lines" —
physical lines first, tolerating LF and CRLF endings. -/
def splitLinesCR (s : List Char) : List (List Char) :=
  (splitNL s).map dropCR

/-- Does this physical line continue the previous one (iCalendar folding)? -/
def isCont (l : List Char) : Bool :=
  match l with
  | c :: _ => c == ' ' || c == '\t'
  | [] => false

/-- Modelled from the spec: "a line beginning with a single space or tab is
a continuation of the previous line and must be joined (with the fold
character removed)". -/
def unfoldGo (cur : List Char) : List (List Char) → List (List Char)
  | [] => [cur]
  | l :: rest =>
    if isCont l then unfoldGo (cur ++ l.tail) rest
    else cur :: unfoldGo l rest

/-- Rejoin all folded lines. -/
def unfoldLines : List (List Char) → List (List Char)
  | [] => []
  | l :: rest => unfoldGo l rest

/-- Split at the first occurrence of `sep`, when there is one. -/
def splitFirst (sep : Char) : List Char → Option (List Char × List Char)
  | [] => none
  | c :: rest =>
    if c = sep then some ([], rest)
    else
      match splitFirst sep rest with
      | none => none
      | some (a, b) => some (c :: a, b)

/-- Modelled from the spec: name and value of a property line — the part
before the first colon is the name, "a trailing parameter list (e.g.
`;VALUE=DATE` or `;TZID=...`) before the colon is stripped"; a line without
a colon is malformed (`none`, skipped). -/
def propNameValue (l : List Char) : Option (List Char × List Char) :=
  match splitFirst ':' l with
  | none => none
  | some (nameParams, value) =>
    match splitFirst ';' nameParams with
    | none => some (nameParams, value)
    | some (name, _) => some (name, value)

/-- Numeric value of a decimal digit character. -/
def digitVal (c : Char) : Nat := c.toNat - 48

/-- Are all characters decimal digits? -/
def allDigits (l : List Char) : Bool := l.all Char.isDigit

/-- Two decimal digits. -/
def num2 (a b : Char) : Nat := 10 * digitVal a + digitVal b

/-- Four decimal digits. -/
def num4 (a b c d : Char) : Nat := 100 * num2 a b + num2 c d

/-- `Date.UTC(y, mo - 1, d, h, mi, s)` in milliseconds. -/
def utcMs (y mo d h mi s : Nat) : Int :=
  daysFromCivil ⟨(y : Int), (mo : Int), (d : Int)⟩ * msPerDay +
    (((h * 3600 + mi * 60 + s) * 1000 : Nat) : Int)

/-- Modelled from the spec: parse an ICS date value.  "A value matching the
compact date-only form (8 digits) is treated as an all-day event
starting/ending at local midnight.  A value matching the compact date-time
form (`YYYYMMDDTHHMMSS` optionally suffixed `Z`) is parsed as UTC when the
`Z` suffix is present, otherwise interpreted as the viewer's local time
zone."  Anything else is malformed (`none`). -/
def parseICSDate (off : Int) (v : List Char) : Option Int :=
  match v with
  | [y1, y2, y3, y4, mo1, mo2, d1, d2] =>
    if allDigits [y1, y2, y3, y4, mo1, mo2, d1, d2] then
      some (civilToMs ⟨(num4 y1 y2 y3 y4 : Int), (num2 mo1 mo2 : Int),
        (num2 d1 d2 : Int)⟩ - off)
    else none
  | [y1, y2, y3, y4, mo1, mo2, d1, d2, t, h1, h2, mi1, mi2, s1, s2] =>
    if t = 'T' ∧
        allDigits [y1, y2, y3, y4, mo1, mo2, d1, d2, h1, h2, mi1, mi2, s1, s2]
    then
      some (utcMs (num4 y1 y2 y3 y4) (num2 mo1 mo2) (num2 d1 d2)
        (num2 h1 h2) (num2 mi1 mi2) (num2 s1 s2) - off)
    else none
  | [y1, y2, y3, y4, mo1, mo2, d1, d2, t, h1, h2, mi1, mi2, s1, s2, z] =>
    if t = 'T' ∧ z = 'Z' ∧
        allDigits [y1, y2, y3, y4, mo1, mo2, d1, d2, h1, h2, mi1, mi2, s1, s2]
    then
      some (utcMs (num4 y1 y2 y3 y4) (num2 mo1 mo2) (num2 d1 d2)
        (num2 h1 h2) (num2 mi1 mi2) (num2 s1 s2))
    else none
  | _ => none

/-- The partially accumulated properties of one VEVENT block. -/
structure RawEvent where
  uid : Option (List Char)
  summary : Option (List Char)
  description : Option (List Char)
  location : Option (List Char)
  start : Option Int
  endTime : Option Int
deriving DecidableEq

/-- No property seen yet. -/
def emptyRaw : RawEvent := ⟨none, none, none, none, none, none⟩

/-- Modelled from the spec: handling of one property line inside a VEVENT
block — recognized properties `UID`, `SUMMARY`, `DESCRIPTION`, `LOCATION`,
`DTSTART`, `DTEND` (case-sensitive); text values are unescaped, date values
parsed; "malformed individual property lines are skipped — the parser
degrades to omitting that property"; all other properties are ignored. -/
def addProp (off : Int) (raw : RawEvent) (line : List Char) : RawEvent :=
  match propNameValue line with
  | none => raw
  | some (name, value) =>
    if name = "UID".data then { raw with uid := some value }
    else if name = "SUMMARY".data then
      { raw with summary := some (unescapeText value) }
    else if name = "DESCRIPTION".data then
      { raw with description := some (unescapeText value) }
    else if name = "LOCATION".data then
      { raw with location := some (unescapeText value) }
    else if name = "DTSTART".data then
      match parseICSDate off value with
      | none => raw
      | some t => { raw with start := some t }
    else if name = "DTEND".data then
      match parseICSDate off value with
      | none => raw
      | some t => { raw with endTime := some t }
    else raw

/-- Modelled from the spec: close a VEVENT block — "any VEVENT block missing
a required `SUMMARY` or `DTSTART` is dropped silently"; the summary is
"required, non-empty". -/
def finishEvent (src : String) (raw : RawEvent) : Option Event :=
  match raw.summary, raw.start with
  | some s, some t =>
    if s.isEmpty then none
    else some ⟨String.mk (raw.uid.getD []), src, String.mk s,
      String.mk (raw.description.getD []), String.mk (raw.location.getD []),
      t, raw.endTime⟩
  | _, _ => none

/-- Modelled from the spec: the logical-line scan — "the parser scans for
`BEGIN:VEVENT` / `END:VEVENT` blocks; all other calendar-level content is
ignored"; events are emitted in source order. -/
def parseLines (off : Int) (src : String) :
    List (List Char) → Option RawEvent → List Event
  | [], _ => []
  | line :: rest, none =>
    if line = "BEGIN:VEVENT".data then parseLines off src rest (some emptyRaw)
    else parseLines off src rest none
  | line :: rest, some raw =>
    if line = "END:VEVENT".data then
      match finishEvent src raw with
      | none => parseLines off src rest none
      | some e => e :: parseLines off src rest none
    else parseLines off src rest (some (addProp off raw line))

/-- Modelled from the spec: `parseICS(text, sourceName)` of the missing
`src/utils/icsParser.js`: split into physical lines, rejoin folded lines,
then scan the VEVENT blocks. -/
def parseICS (off : Int) (text : List Char) (src : String) : List Event :=
  parseLines off src (unfoldLines (splitLinesCR text)) none

/-- The property-line lists of the `BEGIN:VEVENT` … `END:VEVENT` blocks of
a line sequence, in order (an unterminated block contributes nothing: the
scan never reaches its `END:VEVENT`). -/
def vevBlocks (mode : Option (List (List Char))) :
    List (List Char) → List (List (List Char))
  | [] => []
  | l :: rest =>
    match mode with
    | none =>
      if l = "BEGIN:VEVENT".data then vevBlocks (some []) rest
      else vevBlocks none rest
    | some acc =>
      if l = "END:VEVENT".data then acc.reverse :: vevBlocks none rest
      else vevBlocks (some (l :: acc)) rest

/-- The event of one block's property lines, when the block is valid. -/
def buildEvent (off : Int) (src : String) (b : List (List Char)) :
    Option Event :=
  finishEvent src (b.foldl (addProp off) emptyRaw)

/-- A concrete event whose start has a non-zero milliseconds part. -/
def evC8 : Event := ⟨"", "Monash EBS", "Talk", "", "", 500, none⟩

/-- The UID value emitted by `generateICS`: the event's own `uid`, or the
`Date.now() + '@melb-econ-seminars'` fallback when it is empty. -/
def uidValOf (now : Int) (e : Event) : List Char :=
  if e.uid = "" then natDec now.toNat ++ "@melb-econ-seminars".data
  else e.uid.data


/-- The optional `DTEND` line of the generated calendar. -/
def endSegOf (e : Event) : List (List Char) :=
  match e.endTime with
  | none => []
  | some t2 => ["DTEND:".data ++ formatICSDate t2]


/-- The optional `DESCRIPTION` line of the generated calendar. -/
def descSegOf (e : Event) : List (List Char) :=
  if e.description = "" then []
  else ["DESCRIPTION:".data ++ escapeText e.description.data]


/-- The optional `LOCATION` line of the generated calendar. -/
def locSegOf (e : Event) : List (List Char) :=
  if e.location = "" then []
  else ["LOCATION:".data ++ escapeText e.location.data]


/-- The property lines between `BEGIN:VEVENT` and `END:VEVENT` of the
generated calendar. -/
def vevPropLines (now : Int) (e : Event) : List (List Char) :=
  ["UID:".data ++ uidValOf now e,
    "DTSTAMP:".data ++ formatICSDate now,
    "DTSTART:".data ++ formatICSDate e.start] ++ endSegOf e ++
  ["SUMMARY:".data ++ escapeText e.summary.data] ++ descSegOf e ++ locSegOf e


/-- Every generated line before the final `END:VCALENDAR`. -/
def keptLinesOf (now : Int) (e : Event) : List (List Char) :=
  "BEGIN:VCALENDAR".data :: "VERSION:2.0".data ::
    "PRODID:-//Melbourne Econ Seminars//EN".data ::
    "CALSCALE:GREGORIAN".data :: "BEGIN:VEVENT".data ::
    (vevPropLines now e ++ ["END:VEVENT".data])

/-- A concrete event, with every optional field populated, whose timestamps
are whole seconds. -/
def evC8w : Event :=
  ⟨"u1", "Monash EBS", "Econometrics seminar", "Room 123; bring notes",
    "Building 11, Monash", 1737018000000, some 1737021600000⟩

/-! ## Calendar lemmas -/

theorem daysFromCivil_civilFromDays (z : Int) :
    daysFromCivil (civilFromDays z) = z := by
  have key : ∀ era doe cent dc yc dy mp : Int,
      0 ≤ doe → doe ≤ 146096 →
      cent = (4 * doe + 3) / 146097 →
      dc = doe - 146097 * cent / 4 →
      yc = (4 * dc + 3) / 1461 →
      dy = dc - 1461 * yc / 4 →
      mp = (5 * dy + 2) / 153 →
      daysFromCivil
        ⟨(if (if mp < 10 then mp + 3 else mp - 9) ≤ 2 then
            100 * cent + yc + era * 400 + 1 else 100 * cent + yc + era * 400),
          (if mp < 10 then mp + 3 else mp - 9),
          dy - (153 * mp + 2) / 5 + 1⟩ = era * 146097 + doe - 719468 := by
    intro era doe cent dc yc dy mp h0 h1 hcent hdc hyc hdy hmp
    have hc1 : 0 ≤ cent ∧ cent ≤ 3 := by omega
    have hc2 : 146097 * cent / 4 = 36524 * cent := by
      rcases hc1 with ⟨ha, hb⟩
      interval_cases cent <;> decide
    have hdc1 : 0 ≤ dc ∧ dc ≤ 36524 := by omega
    have hyc1 : 0 ≤ yc ∧ yc ≤ 99 := by omega
    have hv : 1461 * yc / 4 = 365 * yc + yc / 4 := by omega
    have hdy1 : 0 ≤ dy ∧ dy ≤ 365 := by omega
    have hmp1 : 0 ≤ mp ∧ mp ≤ 11 := by omega
    have hyoe4 : (100 * cent + yc) / 4 = 25 * cent + yc / 4 := by omega
    have hyoe100 : (100 * cent + yc) / 100 = cent := by omega
    have hi : (100 * cent + yc + era * 400) / 400 = era := by omega
    have hg : (100 * cent + yc + era * 400 -
        (100 * cent + yc + era * 400) / 400 * 400) / 4 =
        (100 * cent + yc) / 4 := by omega
    have hii : (100 * cent + yc + era * 400 -
        (100 * cent + yc + era * 400) / 400 * 400) / 100 =
        (100 * cent + yc) / 100 := by omega
    have hjk1 : (153 * (mp + 3 - 3) + 2) / 5 = (153 * mp + 2) / 5 := by omega
    have hjk2 : (153 * (mp - 9 + 9) + 2) / 5 = (153 * mp + 2) / 5 := by omega
    simp only [daysFromCivil]
    split_ifs <;> (try simp only [Int.add_sub_cancel]) <;> omega
  have hz : 0 ≤ z + 719468 - (z + 719468) / 146097 * 146097 ∧
      z + 719468 - (z + 719468) / 146097 * 146097 ≤ 146096 := by omega
  simp only [civilFromDays]
  exact key ((z + 719468) / 146097)
    (z + 719468 - (z + 719468) / 146097 * 146097)
    _ _ _ _ _ hz.1 hz.2 rfl rfl rfl rfl rfl |>.trans (by omega)

theorem civilFromDays_bounds (z : Int) (h0 : 0 ≤ z) (h1 : z ≤ 2932896) :
    0 ≤ (civilFromDays z).year ∧ (civilFromDays z).year ≤ 9999 ∧
      1 ≤ (civilFromDays z).month ∧ (civilFromDays z).month ≤ 12 ∧
      1 ≤ (civilFromDays z).day ∧ (civilFromDays z).day ≤ 31 := by
  have key : ∀ era doe cent dc yc dy mp : Int,
      0 ≤ doe → doe ≤ 146096 → 4 ≤ era → era ≤ 24 →
      (era = 24 → doe ≤ 146036) →
      cent = (4 * doe + 3) / 146097 →
      dc = doe - 146097 * cent / 4 →
      yc = (4 * dc + 3) / 1461 →
      dy = dc - 1461 * yc / 4 →
      mp = (5 * dy + 2) / 153 →
      (0 ≤ (if (if mp < 10 then mp + 3 else mp - 9) ≤ 2 then
          100 * cent + yc + era * 400 + 1 else 100 * cent + yc + era * 400) ∧
        (if (if mp < 10 then mp + 3 else mp - 9) ≤ 2 then
          100 * cent + yc + era * 400 + 1 else 100 * cent + yc + era * 400)
          ≤ 9999 ∧
        1 ≤ (if mp < 10 then mp + 3 else mp - 9) ∧
        (if mp < 10 then mp + 3 else mp - 9) ≤ 12 ∧
        1 ≤ dy - (153 * mp + 2) / 5 + 1 ∧
        dy - (153 * mp + 2) / 5 + 1 ≤ 31) := by
    intro era doe cent dc yc dy mp h0 h1 he1 he2 he3 hcent hdc hyc hdy hmp
    have hc1 : 0 ≤ cent ∧ cent ≤ 3 := by omega
    have hc2 : 146097 * cent / 4 = 36524 * cent := by
      rcases hc1 with ⟨ha, hb⟩
      interval_cases cent <;> decide
    have hdc1 : 0 ≤ dc ∧ dc ≤ 36524 := by omega
    have hyc1 : 0 ≤ yc ∧ yc ≤ 99 := by omega
    have hv : 1461 * yc / 4 = 365 * yc + yc / 4 := by omega
    have hdy1 : 0 ≤ dy ∧ dy ≤ 365 := by omega
    have hmp1 : 0 ≤ mp ∧ mp ≤ 11 := by omega
    have hday : (153 * mp + 2) / 5 ≤ dy ∧ dy ≤ (153 * mp + 2) / 5 + 30 := by
      omega
    split_ifs <;> omega
  have hz : 0 ≤ z + 719468 - (z + 719468) / 146097 * 146097 ∧
      z + 719468 - (z + 719468) / 146097 * 146097 ≤ 146096 := by omega
  have he : 4 ≤ (z + 719468) / 146097 ∧ (z + 719468) / 146097 ≤ 24 := by omega
  have he3 : (z + 719468) / 146097 = 24 →
      z + 719468 - (z + 719468) / 146097 * 146097 ≤ 146036 := by omega
  simp only [civilFromDays]
  exact key ((z + 719468) / 146097)
    (z + 719468 - (z + 719468) / 146097 * 146097)
    _ _ _ _ _ hz.1 hz.2 he.1 he.2 he3 rfl rfl rfl rfl rfl

/-! ## Text lemmas -/

theorem toNat_ofNat_of_valid {m : Nat} (h : m.isValidChar) :
    (Char.ofNat m).toNat = m := by
  rw [Char.ofNat, dif_pos h]
  rfl

theorem toLower_eq_self {d : Char} (h : ¬(65 ≤ d.toNat ∧ d.toNat ≤ 90)) :
    d.toLower = d := by
  simp only [Char.toLower]
  exact if_neg fun hc => h ⟨hc.1, hc.2⟩

theorem char_toLower_idem (c : Char) : c.toLower.toLower = c.toLower := by
  by_cases h : 65 ≤ c.toNat ∧ c.toNat ≤ 90
  · apply toLower_eq_self
    have h1 : c.toLower = Char.ofNat (c.toNat + 32) := by
      simp only [Char.toLower]
      exact if_pos h
    rw [h1, toNat_ofNat_of_valid (Or.inl (by omega))]
    omega
  · simp only [toLower_eq_self h]

theorem lower_idem (s : List Char) : lower (lower s) = lower s := by
  simp [lower, List.map_map, Function.comp_def, char_toLower_idem]

theorem startsWithL_iff (l n : List Char) :
    startsWithL l n = true ↔ ∃ rest, l = n ++ rest := by
  induction n generalizing l with
  | nil => simp [startsWithL]
  | cons b bs ih =>
    cases l with
    | nil => simp [startsWithL]
    | cons a as => simp [startsWithL, ih, and_assoc]

theorem hasSubstr_iff (hay n : List Char) :
    hasSubstr hay n = true ↔ ∃ pre post, hay = pre ++ n ++ post := by
  induction hay with
  | nil =>
    simp only [hasSubstr, List.isEmpty_iff]
    constructor
    · rintro rfl
      exact ⟨[], [], rfl⟩
    · rintro ⟨pre, post, h⟩
      rcases List.append_eq_nil.mp (List.append_eq_nil.mp h.symm).1 with ⟨-, h2⟩
      exact h2
  | cons a as ih =>
    simp only [hasSubstr, Bool.or_eq_true, startsWithL_iff, ih]
    constructor
    · rintro (⟨rest, h⟩ | ⟨pre, post, h⟩)
      · exact ⟨[], rest, by simpa using h⟩
      · exact ⟨a :: pre, post, by simp [h]⟩
    · rintro ⟨pre, post, h⟩
      cases pre with
      | nil => exact Or.inl ⟨post, by simpa using h⟩
      | cons x xs =>
        simp only [List.cons_append, List.cons.injEq] at h
        exact Or.inr ⟨xs, post, h.2⟩

theorem fuzzyIncludes_iff (text q : List Char) :
    fuzzyIncludes text q = true ↔ List.Sublist q text := by
  induction text generalizing q with
  | nil => cases q <;> simp [fuzzyIncludes]
  | cons t ts ih =>
    cases q with
    | nil => simp [fuzzyIncludes]
    | cons a as =>
      simp only [fuzzyIncludes]
      by_cases h : t = a
      · subst h
        rw [if_pos (by simp), ih, List.cons_sublist_cons]
      · rw [if_neg (by simpa using h), ih]
        constructor
        · exact fun hs => hs.cons t
        · intro hs
          cases hs with
          | cons _ h2 => exact h2
          | cons₂ _ h2 => exact absurd rfl h

/-! ## C1: the text-search stage -/

/-- C1 counterexample: with query `"a b"`, summary `"a"` and description
`"b"`, the code's text-search stage keeps the event — the code joins summary
and description with a single space, so the query's space matches the
separator in the fuzzy-subsequence test — while the claim's condition (a
subsequence of the plain concatenation `"ab"`, or a substring of either field
alone) fails. -/
theorem searchKeep_claim_counterexample :
    searchKeep (lower (trimChars ("a b" : String).data)) evC1 = true ∧
      ¬ searchClaimC1 "a b" evC1 := by
  constructor
  · decide
  · rintro (h | h | ⟨pre, post, h⟩ | ⟨pre, post, h⟩)
    · exact absurd h (by decide)
    · have h2 := (fuzzyIncludes_iff
        (lower evC1.summary.data ++ lower evC1.description.data) _).mpr h
      exact absurd h2 (by decide)
    · have h2 := (hasSubstr_iff (lower evC1.summary.data) _).mpr ⟨pre, post, h⟩
      exact absurd h2 (by decide)
    · have h2 := (hasSubstr_iff (lower evC1.description.data) _).mpr
        ⟨pre, post, h⟩
      exact absurd h2 (by decide)

/-- C1 (amended): the text-search stage keeps an event iff the trimmed query
is empty, or the lower-cased query is a (not necessarily contiguous)
subsequence of the lower-cased summary and description joined by a single
space, or a contiguous substring of the lower-cased summary alone or of the
lower-cased description alone. -/
theorem searchKeep_iff (searchTerm : String) (e : Event) :
    searchKeep (lower (trimChars searchTerm.data)) e = true ↔
      (lower (trimChars searchTerm.data) = [] ∨
        List.Sublist (lower (trimChars searchTerm.data))
          (lower e.summary.data ++ ' ' :: lower e.description.data) ∨
        (∃ pre post, lower e.summary.data =
          pre ++ lower (trimChars searchTerm.data) ++ post) ∨
        (∃ pre post, lower e.description.data =
          pre ++ lower (trimChars searchTerm.data) ++ post)) := by
  simp only [searchKeep, Bool.or_eq_true, fuzzyIncludes_iff, hasSubstr_iff,
    lower_idem, List.isEmpty_iff, or_assoc]

/-! ## C2: empty source selection -/

/-- C2: with an empty selected-source set the filter pipeline returns the
empty sequence, whatever the search query, tags, date-filter mode, custom
bounds, event list, clock and time zone are. -/
theorem filteredEvents_empty_sources (off now : Int) (q : String)
    (tags : List String) (mode : DateFilter) (cs ce : Option CivilDate)
    (evs : List Event) :
    filteredEvents off now ⟨[], q, tags, mode, cs, ce⟩ evs = [] := by
  have h1 : stage12 ⟨[], q, tags, mode, cs, ce⟩ evs = [] := by
    simp [stage12, sourceKeep]
  rw [filteredEvents, h1]
  cases mode <;> cases cs <;> cases ce <;> simp [applyDateFilter, sortBy]

/-! ## C5: the tag stage -/

/-- C5: the tag stage keeps an event iff no tag is selected, or some selected
tag occurs in the summary as a literal, case-sensitive substring; the
description plays no role, and an empty tag selection passes everything. -/
theorem tagKeep_iff (tags : List String) (e : Event) :
    tagKeep tags e = true ↔
      tags = [] ∨ ∃ t ∈ tags, ∃ pre post,
        e.summary.data = pre ++ t.data ++ post := by
  simp [tagKeep, hasSubstr_iff, List.isEmpty_iff, List.any_eq_true]

/-! ## Sorting lemmas -/

theorem mem_insertBy {α : Type _} (le : α → α → Bool) (a x : α) (l : List α) :
    x ∈ insertBy le a l ↔ x = a ∨ x ∈ l := by
  induction l with
  | nil => simp [insertBy]
  | cons b bs ih =>
    simp only [insertBy]
    split
    · simp
    · simp [ih]
      tauto

theorem mem_sortBy {α : Type _} (le : α → α → Bool) (x : α) (l : List α) :
    x ∈ sortBy le l ↔ x ∈ l := by
  induction l with
  | nil => simp [sortBy]
  | cons a as ih => simp [sortBy, mem_insertBy, ih]

theorem pairwise_insertBy {α : Type _} (le : α → α → Bool)
    (htrans : ∀ x y z, le x y = true → le y z = true → le x z = true)
    (htot : ∀ x y, le x y = true ∨ le y x = true)
    (a : α) (l : List α) (h : l.Pairwise (fun x y => le x y = true)) :
    (insertBy le a l).Pairwise (fun x y => le x y = true) := by
  induction l with
  | nil => simp [insertBy]
  | cons b bs ih =>
    rcases List.pairwise_cons.mp h with ⟨hb, hbs⟩
    simp only [insertBy]
    split_ifs with hle
    · refine List.pairwise_cons.mpr ⟨?_, h⟩
      intro x hx
      rcases List.mem_cons.mp hx with rfl | hx2
      · exact hle
      · exact htrans a b x hle (hb x hx2)
    · refine List.pairwise_cons.mpr ⟨?_, ih hbs⟩
      intro x hx
      rcases (mem_insertBy le a x bs).mp hx with rfl | hx2
      · rcases htot x b with h2 | h2
        · exact absurd h2 (by simpa using hle)
        · exact h2
      · exact hb x hx2

theorem pairwise_sortBy {α : Type _} (le : α → α → Bool)
    (htrans : ∀ x y z, le x y = true → le y z = true → le x z = true)
    (htot : ∀ x y, le x y = true ∨ le y x = true) (l : List α) :
    (sortBy le l).Pairwise (fun x y => le x y = true) := by
  induction l with
  | nil => simp [sortBy]
  | cons a as ih => exact pairwise_insertBy le htrans htot a _ ih

theorem sortBy_of_pairwise {α : Type _} (le : α → α → Bool) (l : List α)
    (h : l.Pairwise (fun x y => le x y = true)) : sortBy le l = l := by
  induction l with
  | nil => rfl
  | cons a as ih =>
    rcases List.pairwise_cons.mp h with ⟨ha, has⟩
    rw [sortBy, ih has]
    cases as with
    | nil => rfl
    | cons b bs => simp [insertBy, ha b (by simp)]

theorem applyDateFilter_eq_filter (off now : Int) (c : Criteria)
    (l : List Event) :
    applyDateFilter off now c l = l.filter (fun e => datePred off now c e) := by
  obtain ⟨sel, q, tags, df, cs, ce⟩ := c
  cases df with
  | past => simp [applyDateFilter, datePred]
  | upcoming => simp [applyDateFilter, datePred]
  | all => simp [applyDateFilter, datePred]
  | custom =>
    cases cs with
    | none =>
      cases ce with
      | none => simp [applyDateFilter, datePred]
      | some d2 => simp [applyDateFilter, datePred]
    | some d1 =>
      cases ce with
      | none => simp [applyDateFilter, datePred]
      | some d2 =>
        simp only [applyDateFilter, datePred, List.filter_filter]
        apply List.filter_congr
        intro x _
        exact Bool.and_comm _ _

/-- Membership in the pipeline output, unfolded. -/
theorem mem_filteredEvents (off now : Int) (c : Criteria) (evs : List Event)
    (e : Event) :
    e ∈ filteredEvents off now c evs ↔
      e ∈ stage12 c evs ∧ datePred off now c e = true := by
  rw [filteredEvents, applyDateFilter_eq_filter, mem_sortBy, List.mem_filter]

/-! ## C4: upcoming and past partition the filtered events -/

/-- C4: for a fixed clock and time zone, the `upcoming` mode (start at or
after the start of the current local day) and the `past` mode (start strictly
before it) split the events surviving the source/search/tag stages into
disjoint, exhaustive parts: each such event is kept by exactly one mode. -/
theorem upcoming_past_partition (off now : Int) (sel : List String)
    (q : String) (tags : List String) (cs ce : Option CivilDate)
    (evs : List Event) (e : Event)
    (he : e ∈ stage12 ⟨sel, q, tags, .upcoming, cs, ce⟩ evs) :
    (e ∈ filteredEvents off now ⟨sel, q, tags, .upcoming, cs, ce⟩ evs ↔
      e ∉ filteredEvents off now ⟨sel, q, tags, .past, cs, ce⟩ evs) := by
  have hs : e ∈ stage12 ⟨sel, q, tags, DateFilter.past, cs, ce⟩ evs := he
  rw [mem_filteredEvents, mem_filteredEvents]
  simp only [he, hs, true_and, datePred, decide_eq_true_eq]
  omega

/-- Witness for `upcoming_past_partition` at a concrete event and clock. -/
theorem upcoming_past_partition_witness :
    evC1 ∈ stage12 ⟨["Monash EBS"], "", [], .upcoming, none, none⟩ [evC1] ∧
      (evC1 ∈ filteredEvents 0 86400000
          ⟨["Monash EBS"], "", [], .upcoming, none, none⟩ [evC1] ↔
        evC1 ∉ filteredEvents 0 86400000
          ⟨["Monash EBS"], "", [], .past, none, none⟩ [evC1]) :=
  ⟨by decide, upcoming_past_partition 0 86400000 ["Monash EBS"] "" [] none none
    [evC1] evC1 (by decide)⟩

/-! ## C3: the custom date range -/

/-- C3: counterexample to the claimed custom range for a viewer west of UTC.
At offset UTC-5, `new Date("2025-01-10")` is UTC midnight of the end date,
which is 19:00 local on 2025-01-09; `setHours(23,59,59)` therefore lands on
23:59:59 local of 2025-01-09, the day BEFORE the chosen end date.  The event
`evC3` survives the earlier stages and starts at 07:00 local on the chosen
end date itself — by the claim it must be kept — yet the pipeline drops it. -/
theorem filteredEvents_custom_counterexample :
    filteredEvents (-18000000) 0
        ⟨["Monash EBS"], "", [], .custom, none, some ⟨2025, 1, 10⟩⟩
        [evC3] = [] ∧
      evC3 ∈ stage12
        ⟨["Monash EBS"], "", [], .custom, none, some ⟨2025, 1, 10⟩⟩ [evC3] ∧
      localDay (-18000000) evC3.start = daysFromCivil ⟨2025, 1, 10⟩ := by
  decide

/-- C3 (amended): in `custom` mode the pipeline keeps exactly the events
surviving the earlier stages whose start is at or after the custom start
bound (UTC midnight of the chosen date, as `new Date("YYYY-MM-DD")`
produces) and at or before the end bound; an unset bound imposes no
constraint on its side.  The end bound is `setHours(23,59,59)` applied to
UTC midnight of the chosen end date, which is 23:59:59 local time OF THE
CHOSEN DAY for viewers at or east of UTC, but 23:59:59 local time of the
PREVIOUS day for viewers west of UTC.  The viewer's zone is modelled as a
fixed whole-second UTC offset with `-24h < off < 24h`, covering every real
time zone on both sides of UTC. -/
theorem filteredEvents_custom (off now : Int) (hoff0 : -msPerDay < off)
    (hoff1 : off < msPerDay) (hoff2 : off % 1000 = 0) (sel : List String)
    (q : String) (tags : List String) (cs ce : Option CivilDate)
    (evs : List Event) (e : Event) :
    e ∈ filteredEvents off now ⟨sel, q, tags, .custom, cs, ce⟩ evs ↔
      e ∈ stage12 ⟨sel, q, tags, .custom, cs, ce⟩ evs ∧
        (∀ d1, cs = some d1 → civilToMs d1 ≤ e.start) ∧
        (∀ d2, ce = some d2 → e.start ≤
          (if 0 ≤ off then civilToMs d2 + 86399000 - off
            else civilToMs d2 - 1000 - off)) := by
  have hset : ∀ d : CivilDate,
      setHours235959 off (civilToMs d) =
        if 0 ≤ off then civilToMs d + 86399000 - off
        else civilToMs d - 1000 - off := by
    intro d
    have h1 : off < 86400000 := by simpa [msPerDay] using hoff1
    have h0 : -86400000 < off := by
      have := hoff0
      simp only [msPerDay] at this
      omega
    simp only [setHours235959, startOfLocalDay, localDay, civilToMs, msPerDay]
    generalize daysFromCivil d = D
    split_ifs with hsgn
    · omega
    · omega
  rw [mem_filteredEvents]
  cases cs with
  | none =>
    cases ce with
    | none => simp [datePred]
    | some d2 => simp [datePred, hset d2]
  | some d1 =>
    cases ce with
    | none => simp [datePred]
    | some d2 => simp [datePred, hset d2, and_assoc]

/-- Witness for `filteredEvents_custom` at a western offset (UTC-5) and a
concrete event and range. -/
theorem filteredEvents_custom_witness :
    (-msPerDay : Int) < -18000000 ∧ (-18000000 : Int) < msPerDay ∧
      (-18000000 : Int) % 1000 = 0 ∧
      (evC1 ∈ filteredEvents (-18000000) 0
          ⟨["Monash EBS"], "", [], .custom, some ⟨1969, 12, 25⟩,
            some ⟨1970, 1, 7⟩⟩ [evC1] ↔
        evC1 ∈ stage12 ⟨["Monash EBS"], "", [], .custom, some ⟨1969, 12, 25⟩,
            some ⟨1970, 1, 7⟩⟩ [evC1] ∧
          (∀ d1, (some ⟨1969, 12, 25⟩ : Option CivilDate) = some d1 →
            civilToMs d1 ≤ evC1.start) ∧
          (∀ d2, (some ⟨1970, 1, 7⟩ : Option CivilDate) = some d2 →
            evC1.start ≤
              (if (0 : Int) ≤ -18000000 then
                civilToMs d2 + 86399000 - (-18000000)
              else civilToMs d2 - 1000 - (-18000000)))) :=
  ⟨by decide, by decide, by decide,
    filteredEvents_custom (-18000000) 0 (by decide) (by decide) (by decide)
      ["Monash EBS"] "" [] _ _ [evC1] evC1⟩

/-! ## C6: idempotence of the pipeline -/

/-- C6: for fixed criteria, clock and time zone, the filter pipeline is
idempotent — applying it to its own output reproduces that output unchanged.
(The embedding is a pure function of its arguments, matching the claim's
side-effect-freeness: the input event list is never mutated.) -/
theorem filteredEvents_idem (off now : Int) (c : Criteria)
    (evs : List Event) :
    filteredEvents off now c (filteredEvents off now c evs) =
      filteredEvents off now c evs := by
  have hmem : ∀ x ∈ filteredEvents off now c evs,
      x ∈ stage12 c evs ∧ datePred off now c x = true := by
    intro x hx
    exact (mem_filteredEvents off now c evs x).mp hx
  conv_lhs => rw [filteredEvents]
  have h1 : stage12 c (filteredEvents off now c evs) =
      filteredEvents off now c evs := by
    apply List.filter_eq_self.mpr
    intro x hx
    have h2 := (hmem x hx).1
    exact (List.mem_filter.mp h2).2
  rw [h1, applyDateFilter_eq_filter]
  have h2 : List.filter (fun e => datePred off now c e)
      (filteredEvents off now c evs) = filteredEvents off now c evs :=
    List.filter_eq_self.mpr fun x hx => (hmem x hx).2
  rw [h2]
  apply sortBy_of_pairwise
  rw [filteredEvents]
  apply pairwise_sortBy
  · intro x y z
    simp only [leStart, decide_eq_true_eq]
    omega
  · intro x y
    simp only [leStart, decide_eq_true_eq]
    omega

/-! ## Grouping lemmas (C7, C10) -/

theorem monthIdOf_congr {off : Int} {e p : Event}
    (h : dayIdOf off e = dayIdOf off p) :
    monthIdOf off e = monthIdOf off p := by
  unfold dayIdOf at h
  unfold monthIdOf
  rw [h]

theorem weekIdOf_congr {off : Int} {e p : Event}
    (h : dayIdOf off e = dayIdOf off p) :
    weekIdOf off e = weekIdOf off p := by
  unfold dayIdOf at h
  unfold weekIdOf monthIdOf weekStartOf
  rw [h]

theorem stepGroup_eq (off : Int) (prev : Option Event) (e : Event) :
    stepGroup off (stateOf off prev) e =
      (stateOf off (some e),
        markersFor off prev e ++ [GroupRec.eventRec (eventIdOf e) e]) := by
  cases prev with
  | none => simp [stepGroup, stateOf, markersFor]
  | some p =>
    by_cases hd : dayIdOf off e = dayIdOf off p
    · have hm := monthIdOf_congr hd
      have hw := weekIdOf_congr hd
      simp [stepGroup, stateOf, markersFor, hd, hm, hw]
    · by_cases hm : monthIdOf off e = monthIdOf off p
      · by_cases hw : weekIdOf off e = weekIdOf off p
        · simp [stepGroup, stateOf, markersFor, hd, hm, hw]
        · simp [stepGroup, stateOf, markersFor, hd, hm, hw]
      · have hw : weekIdOf off e ≠ weekIdOf off p := fun hc =>
          hm (congrArg Prod.fst hc)
        simp [stepGroup, stateOf, markersFor, hd, hm, hw]

theorem groupGo_eq_byPrev (off : Int) (prev : Option Event)
    (l : List Event) :
    groupGo off (stateOf off prev) l = groupByPrev off prev l := by
  induction l generalizing prev with
  | nil => rfl
  | cons e rest ih =>
    show (stepGroup off (stateOf off prev) e).2 ++
        groupGo off (stepGroup off (stateOf off prev) e).1 rest =
      groupByPrev off prev (e :: rest)
    rw [stepGroup_eq]
    show markersFor off prev e ++ [GroupRec.eventRec (eventIdOf e) e] ++
        groupGo off (stateOf off (some e)) rest = _
    rw [ih (some e), groupByPrev]
    simp

/-- C7 (amended): the list-sections derivation is the one-pass derivation
that, comparing with the previous event only, emits a month marker exactly
when the month changed, a week marker exactly when the week identifier —
the (month, Sunday-week-start) pair, so also at a month change inside one
Sunday-start week — changed, and a day marker exactly when the local day
changed; consecutive events sharing a day emit no marker, identifiers depend
only on calendar-unit boundaries, and the derivation is a pure function, so
re-running it reproduces identical markers and ordering. -/
theorem groupedListEvents_eq_byPrev (off : Int) (l : List Event) :
    groupedListEvents off l = groupByPrev off none l :=
  groupGo_eq_byPrev off none l

/-- C7 counterexample: events on Friday 2025-01-31 and Saturday 2025-02-01
share their Sunday-start week (beginning Sunday 2025-01-26), yet the code
emits two week markers — the month change resets the week tracking and the
week identifier embeds the month — whereas the claim's reading ("a week
marker exactly when the week of the current event differs from the previous
position") yields one; the claim-conformant derivation disagrees with the
code on this input. -/
theorem groupedListEvents_claim_counterexample :
    weekStartOf 0 evJan31 = weekStartOf 0 evFeb01 ∧
      (groupedListEvents 0 [evJan31, evFeb01]).countP isWeekRec = 2 ∧
      groupClaimC7 0 none [evJan31, evFeb01] ≠
        groupedListEvents 0 [evJan31, evFeb01] := by
  decide

theorem groupByPrev_filterMap (off : Int) (prev : Option Event)
    (l : List Event) :
    (groupByPrev off prev l).filterMap getEventData = l := by
  induction l generalizing prev with
  | nil => rfl
  | cons e rest ih =>
    rw [groupByPrev, List.filterMap_append]
    have h1 : (markersFor off prev e).filterMap getEventData = [] := by
      cases prev with
      | none => rfl
      | some p =>
        simp only [markersFor]
        split_ifs <;> rfl
    rw [h1]
    simp [getEventData, ih (some e)]

theorem groupByPrev_wellMarked (off : Int) (p : Option Event)
    (l : List Event) :
    wellMarked off (p.map (monthIdOf off)) (p.map (weekIdOf off))
      (p.map (dayIdOf off)) (groupByPrev off p l) = true := by
  induction l generalizing p with
  | nil => cases p <;> rfl
  | cons e rest ih =>
    rw [groupByPrev]
    cases p with
    | none =>
      simp only [Option.map_none, markersFor, List.cons_append, List.nil_append, wellMarked]
      simp only [beq_self_eq_true, Bool.true_and]
      simpa using ih (some e)
    | some q =>
      by_cases hd : dayIdOf off e = dayIdOf off q
      · have hm := monthIdOf_congr hd
        have hw := weekIdOf_congr hd
        simp only [Option.map_some', markersFor, hd, hm, hw, ne_eq, not_true_eq_false,
          if_false, List.append_nil, List.nil_append, List.cons_append, wellMarked]
        simp only [Option.map_some', beq_self_eq_true, Bool.true_and]
        simpa [hm, hw, hd] using ih (some e)
      · by_cases hm : monthIdOf off e = monthIdOf off q
        · by_cases hw : weekIdOf off e = weekIdOf off q
          · simp only [Option.map_some', markersFor, hd, hm, hw, ne_eq, not_true_eq_false,
              if_false, if_true, not_false_eq_true, List.append_nil,
              List.nil_append, List.cons_append, wellMarked]
            simp only [Option.map_some', beq_self_eq_true, Bool.true_and]
            simpa [hm, hw] using ih (some e)
          · simp only [Option.map_some', markersFor, hd, hm, hw, ne_eq, not_true_eq_false,
              if_false, if_true, not_false_eq_true, List.append_nil,
              List.nil_append, List.cons_append, wellMarked]
            simp only [Option.map_some', beq_self_eq_true, Bool.true_and]
            simpa [hm] using ih (some e)
        · have hw : weekIdOf off e ≠ weekIdOf off q := fun hc => hm (congrArg Prod.fst hc)
          simp only [Option.map_some', markersFor, hd, hm, hw, ne_eq, not_false_eq_true, if_true,
            List.cons_append, List.nil_append, wellMarked]
          simp only [Option.map_some', beq_self_eq_true, Bool.true_and]
          simpa using ih (some e)

/-! ## Escaping, digit and line lemmas (C8) -/

theorem unescapeText_escapeText (s : List Char) :
    unescapeText (escapeText s) = s := by
  induction s with
  | nil => rfl
  | cons c rest ih =>
    show unescapeText (escChar c ++ escapeText rest) = c :: rest
    by_cases h1 : c = '\\' ∨ c = ',' ∨ c = ';'
    · rw [escChar, if_pos h1]
      show unescapeText ('\\' :: c :: escapeText rest) = c :: rest
      rw [unescapeText, if_pos rfl]
      have hn : c ≠ 'n' := by rcases h1 with rfl | rfl | rfl <;> decide
      have h1b : c = ',' ∨ c = ';' ∨ c = '\\' := by tauto
      rw [if_neg hn, if_pos h1b, ih]
    · by_cases h2 : c = '\n'
      · rw [escChar, if_neg h1, if_pos h2]
        show unescapeText ('\\' :: 'n' :: escapeText rest) = c :: rest
        rw [unescapeText, if_pos rfl, if_pos rfl, ih, h2]
      · rw [escChar, if_neg h1, if_neg h2]
        have hb : c ≠ '\\' := fun hc => h1 (Or.inl hc)
        show unescapeText (c :: escapeText rest) = c :: rest
        rw [unescapeText.eq_def]
        show (if c = '\\' then _ else c :: unescapeText (escapeText rest)) =
          c :: rest
        rw [if_neg hb, ih]

theorem escapeText_ne_nil (c : Char) (r : List Char) :
    escapeText (c :: r) ≠ [] := by
  show escChar c ++ escapeText r ≠ []
  unfold escChar
  split_ifs <;> simp

theorem nl_not_mem_escChar (c : Char) : '\n' ∉ escChar c := by
  unfold escChar
  split_ifs with h1 h2
  · rcases h1 with rfl | rfl | rfl <;> decide
  · decide
  · intro hm
    rcases List.mem_singleton.mp hm with rfl
    exact h2 rfl

theorem nl_not_mem_escapeText (s : List Char) : '\n' ∉ escapeText s := by
  induction s with
  | nil => simp [escapeText]
  | cons c rest ih =>
    show '\n' ∉ escChar c ++ escapeText rest
    intro hm
    rcases List.mem_append.mp hm with hm2 | hm2
    · exact nl_not_mem_escChar c hm2
    · exact ih hm2

theorem digitVal_digitCh {n : Nat} (h : n < 10) :
    digitVal (digitCh n) = n := by
  interval_cases n <;> decide

theorem isDigit_digitCh {n : Nat} (h : n < 10) :
    (digitCh n).isDigit = true := by
  interval_cases n <;> decide

theorem digitCh_ne_nl (n : Nat) : digitCh n ≠ '\n' := by
  unfold digitCh
  split <;> decide

theorem nl_not_mem_natDecAux (fuel : Nat) : ∀ n, '\n' ∉ natDecAux fuel n := by
  induction fuel with
  | zero =>
    intro n hm
    rw [natDecAux] at hm
    exact absurd hm (List.not_mem_nil _)
  | succ fuel ih =>
    intro n hm
    rw [natDecAux] at hm
    split_ifs at hm with h
    · exact digitCh_ne_nl n (List.mem_singleton.mp hm).symm
    · rcases List.mem_append.mp hm with hm2 | hm2
      · exact ih (n / 10) hm2
      · exact digitCh_ne_nl (n % 10) (List.mem_singleton.mp hm2).symm

theorem nl_not_mem_natDec (n : Nat) : '\n' ∉ natDec n :=
  nl_not_mem_natDecAux (n + 1) n

theorem splitNL_of_no_nl (l : List Char) (h : '\n' ∉ l) : splitNL l = [l] := by
  induction l with
  | nil => rfl
  | cons c rest ih =>
    rw [splitNL, if_neg (fun hc => h (List.mem_cons.mpr (Or.inl hc.symm))),
      ih (fun hm => h (List.mem_cons_of_mem _ hm))]

theorem splitNL_append (l rest : List Char) (h : '\n' ∉ l) :
    splitNL (l ++ '\n' :: rest) = l :: splitNL rest := by
  induction l with
  | nil => simp [splitNL]
  | cons c l2 ih =>
    rw [List.cons_append, splitNL,
      if_neg (fun hc => h (List.mem_cons.mpr (Or.inl hc.symm))),
      ih (fun hm => h (List.mem_cons_of_mem _ hm))]

theorem dropCR_append (l : List Char) : dropCR (l ++ ['\r']) = l := by
  unfold dropCR
  rw [List.reverse_append]
  simp

theorem joinCRLF_cons (l : List Char) (ls : List (List Char)) (h : ls ≠ []) :
    joinCRLF (l :: ls) = l ++ '\r' :: '\n' :: joinCRLF ls := by
  cases ls with
  | nil => exact absurd rfl h
  | cons l2 ls2 => rfl

theorem splitLinesCR_joinCRLF (ls : List (List Char)) (lastl : List Char)
    (h1 : ∀ l ∈ ls, '\n' ∉ l) (h1b : '\n' ∉ lastl)
    (h2 : dropCR lastl = lastl) :
    splitLinesCR (joinCRLF (ls ++ [lastl])) = ls ++ [lastl] := by
  induction ls with
  | nil =>
    show splitLinesCR (joinCRLF [lastl]) = [lastl]
    rw [show joinCRLF [lastl] = lastl from rfl]
    unfold splitLinesCR
    rw [splitNL_of_no_nl _ h1b]
    simp [h2]
  | cons l rest ih =>
    rw [List.cons_append, joinCRLF_cons _ _ (by simp)]
    show splitLinesCR
      (l ++ '\r' :: '\n' :: joinCRLF (rest ++ [lastl])) = _
    unfold splitLinesCR
    have hassoc : l ++ '\r' :: '\n' :: joinCRLF (rest ++ [lastl]) =
        (l ++ ['\r']) ++ '\n' :: joinCRLF (rest ++ [lastl]) := by simp
    rw [hassoc, splitNL_append]
    · rw [List.map_cons, dropCR_append]
      have ih2 := ih fun x hx => h1 x (List.mem_cons_of_mem _ hx)
      unfold splitLinesCR at ih2
      rw [ih2]
    · intro hm
      rcases List.mem_append.mp hm with hm2 | hm2
      · exact h1 l (List.mem_cons_self _ _) hm2
      · rcases List.mem_singleton.mp hm2 with h3
        exact absurd h3 (by decide)

theorem unfoldGo_of_no_cont (cur : List Char) (ls : List (List Char))
    (h : ∀ l ∈ ls, isCont l = false) : unfoldGo cur ls = cur :: ls := by
  induction ls generalizing cur with
  | nil => rfl
  | cons l rest ih =>
    have hc : ¬isCont l = true := by
      rw [h l (List.mem_cons_self _ _)]
      exact Bool.false_ne_true
    rw [unfoldGo, if_neg hc,
      ih l fun x hx => h x (List.mem_cons_of_mem _ hx)]

theorem unfoldLines_of_no_cont (ls : List (List Char))
    (h : ∀ l ∈ ls, isCont l = false) : unfoldLines ls = ls := by
  cases ls with
  | nil => rfl
  | cons l rest =>
    rw [unfoldLines, unfoldGo_of_no_cont _ _
      fun x hx => h x (List.mem_cons_of_mem _ hx)]

theorem splitFirst_not_mem (sep : Char) (l : List Char) (h : sep ∉ l) :
    splitFirst sep l = none := by
  induction l with
  | nil => rfl
  | cons c rest ih =>
    rw [splitFirst, if_neg (fun hc => h (List.mem_cons.mpr (Or.inl hc.symm))),
      ih fun hm => h (List.mem_cons_of_mem _ hm)]

theorem splitFirst_append_mk (sep : Char) (name rest : List Char)
    (h : sep ∉ name) : splitFirst sep (name ++ sep :: rest) =
      some (name, rest) := by
  induction name with
  | nil => simp [splitFirst]
  | cons c n2 ih =>
    rw [List.cons_append, splitFirst,
      if_neg (fun hc => h (List.mem_cons.mpr (Or.inl hc.symm))),
      ih fun hm => h (List.mem_cons_of_mem _ hm)]

theorem propNameValue_mk (name value : List Char) (h1 : ':' ∉ name)
    (h2 : ';' ∉ name) :
    propNameValue (name ++ ':' :: value) = some (name, value) := by
  unfold propNameValue
  rw [splitFirst_append_mk _ _ _ h1]
  show (match splitFirst ';' name with
    | none => some (name, value)
    | some (a, _) => some (a, value)) = some (name, value)
  rw [splitFirst_not_mem _ _ h2]

theorem addProp_uid (off : Int) (raw : RawEvent) (v : List Char) :
    addProp off raw ("UID".data ++ ':' :: v) = { raw with uid := some v } := by
  simp only [addProp, propNameValue_mk "UID".data v (by decide) (by decide)]
  simp

theorem addProp_summary_line (off : Int) (raw : RawEvent) (v : List Char) :
    addProp off raw ("SUMMARY".data ++ ':' :: v) =
      { raw with summary := some (unescapeText v) } := by
  simp only [addProp, propNameValue_mk "SUMMARY".data v (by decide) (by decide)]
  simp

theorem addProp_description_line (off : Int) (raw : RawEvent)
    (v : List Char) :
    addProp off raw ("DESCRIPTION".data ++ ':' :: v) =
      { raw with description := some (unescapeText v) } := by
  simp only [addProp, propNameValue_mk "DESCRIPTION".data v (by decide) (by decide)]
  simp

theorem addProp_location_line (off : Int) (raw : RawEvent) (v : List Char) :
    addProp off raw ("LOCATION".data ++ ':' :: v) =
      { raw with location := some (unescapeText v) } := by
  simp only [addProp, propNameValue_mk "LOCATION".data v (by decide) (by decide)]
  simp

theorem addProp_dtstamp (off : Int) (raw : RawEvent) (v : List Char) :
    addProp off raw ("DTSTAMP".data ++ ':' :: v) = raw := by
  simp only [addProp, propNameValue_mk "DTSTAMP".data v (by decide) (by decide)]
  simp

theorem addProp_dtstart (off : Int) (raw : RawEvent) (v : List Char) (t : Int)
    (h : parseICSDate off v = some t) :
    addProp off raw ("DTSTART".data ++ ':' :: v) =
      { raw with start := some t } := by
  simp only [addProp, propNameValue_mk "DTSTART".data v (by decide) (by decide)]
  simp [h]

theorem addProp_dtend (off : Int) (raw : RawEvent) (v : List Char) (t : Int)
    (h : parseICSDate off v = some t) :
    addProp off raw ("DTEND".data ++ ':' :: v) =
      { raw with endTime := some t } := by
  simp only [addProp, propNameValue_mk "DTEND".data v (by decide) (by decide)]
  simp [h]

theorem parseLines_skip (off : Int) (src : String) (line : List Char)
    (rest : List (List Char)) (h : line ≠ "BEGIN:VEVENT".data) :
    parseLines off src (line :: rest) none = parseLines off src rest none := by
  rw [parseLines, if_neg h]

theorem parseLines_begin (off : Int) (src : String)
    (rest : List (List Char)) :
    parseLines off src ("BEGIN:VEVENT".data :: rest) none =
      parseLines off src rest (some emptyRaw) := by
  rw [parseLines, if_pos rfl]

theorem parseLines_props (off : Int) (src : String) (ls : List (List Char))
    (rest : List (List Char)) (raw : RawEvent)
    (h : ∀ l ∈ ls, l ≠ "END:VEVENT".data) :
    parseLines off src (ls ++ "END:VEVENT".data :: rest) (some raw) =
      (finishEvent src (ls.foldl (addProp off) raw)).toList ++
        parseLines off src rest none := by
  induction ls generalizing raw with
  | nil =>
    rw [List.nil_append, List.foldl_nil, parseLines, if_pos rfl]
    cases finishEvent src raw <;> simp
  | cons l ls2 ih =>
    rw [List.cons_append, parseLines,
      if_neg (h l (List.mem_cons_self _ _)), List.foldl_cons]
    exact ih _ fun x hx => h x (List.mem_cons_of_mem _ hx)

theorem cons_ne_cons_of_head {a b : Char} (h : a ≠ b) (l1 l2 : List Char) :
    a :: l1 ≠ b :: l2 := by
  intro hc
  injection hc with h1 _
  exact h h1

theorem parseICSDate_formatICSDate (off t : Int) (h0 : 0 ≤ t)
    (h1 : t < 253402300800000) (h2 : t % 1000 = 0) :
    parseICSDate off (formatICSDate t) = some t := by
  have hz0 : 0 ≤ t / msPerDay := by unfold msPerDay; omega
  have hz1 : t / msPerDay ≤ 2932896 := by unfold msPerDay; omega
  obtain ⟨hy0, hy1, hm0, hm1, hd0, hd1⟩ :=
    civilFromDays_bounds (t / msPerDay) hz0 hz1
  have hdig : ∀ n : Nat, (digitCh (n % 10)).isDigit = true :=
    fun n => isDigit_digitCh (Nat.mod_lt _ (by omega))
  have hval : ∀ n : Nat, digitVal (digitCh (n % 10)) = n % 10 :=
    fun n => digitVal_digitCh (Nat.mod_lt _ (by omega))
  set c := civilFromDays (t / msPerDay) with hc
  set tod := (t % msPerDay).toNat with htod
  rw [formatICSDate]
  simp only [pad4, pad2, List.cons_append, List.nil_append, ← hc, ← htod]
  rw [parseICSDate]
  rw [if_pos ⟨rfl, rfl, by
    simp only [allDigits, List.all_cons, List.all_nil, hdig, Bool.and_self]⟩]
  refine congrArg some ?_
  simp only [num4, num2, hval, utcMs]
  have hyy : (100 * (10 * (c.year.toNat / 1000 % 10) +
      c.year.toNat / 100 % 10) + (10 * (c.year.toNat / 10 % 10) +
      c.year.toNat % 10) : Nat) = c.year.toNat := by omega
  have hmm : (10 * (c.month.toNat / 10 % 10) + c.month.toNat % 10 : Nat) =
      c.month.toNat := by omega
  have hdd : (10 * (c.day.toNat / 10 % 10) + c.day.toNat % 10 : Nat) =
      c.day.toNat := by omega
  have htb : tod < 86400000 := by
    rw [htod]
    unfold msPerDay
    omega
  have hh1 : (10 * (tod / 3600000 / 10 % 10) + tod / 3600000 % 10 : Nat) =
      tod / 3600000 := by omega
  have hh2 : (10 * (tod % 3600000 / 60000 / 10 % 10) +
      tod % 3600000 / 60000 % 10 : Nat) = tod % 3600000 / 60000 := by omega
  have hh3 : (10 * (tod % 60000 / 1000 / 10 % 10) +
      tod % 60000 / 1000 % 10 : Nat) = tod % 60000 / 1000 := by omega
  rw [hyy, hmm, hdd, hh1, hh2, hh3]
  have hcy : ((c.year.toNat : Int)) = c.year := Int.toNat_of_nonneg hy0
  have hcm : ((c.month.toNat : Int)) = c.month :=
    Int.toNat_of_nonneg (by omega)
  have hcd : ((c.day.toNat : Int)) = c.day := Int.toNat_of_nonneg (by omega)
  rw [hcy, hcm, hcd]
  rw [show (⟨c.year, c.month, c.day⟩ : CivilDate) = c from rfl]
  rw [hc, daysFromCivil_civilFromDays]
  have htodc : ((tod : Int)) = t % msPerDay := by
    rw [htod]
    exact Int.toNat_of_nonneg (by unfold msPerDay; omega)
  unfold msPerDay at htodc ⊢
  omega

theorem strMk_data (s : String) : String.mk s.data = s := by
  cases s
  rfl

theorem str_of_data_nil {s : String} (h : s.data = []) : s = "" := by
  have h2 := strMk_data s
  rw [h] at h2
  exact h2.symm

theorem isEmpty_str_append (s : String) (h : s ≠ "") (r : List Char) :
    (s.data ++ r).isEmpty = false := by
  cases hs : s.data with
  | nil => exact absurd (str_of_data_nil hs) h
  | cons c l => rfl

theorem isEmpty_str (s : String) (h : s ≠ "") : s.data.isEmpty = false := by
  have h2 := isEmpty_str_append s h []
  rwa [List.append_nil] at h2

theorem isCont_append (s v : List Char) (h : s ≠ []) :
    isCont (s ++ v) = isCont s := by
  cases s with
  | nil => exact absurd rfl h
  | cons c l => rfl

theorem append_head_ne {c d : Char} (h : c ≠ d) (l v m : List Char) :
    (c :: l) ++ v ≠ d :: m := by
  simpa using cons_ne_cons_of_head h (l ++ v) m

/-- The kept lines of `generateICS`, made explicit. -/
theorem genLines_filter (now : Int) (e : Event) :
    (genLines now e).filter (fun l => !l.isEmpty) =
      ["BEGIN:VCALENDAR".data, "VERSION:2.0".data,
        "PRODID:-//Melbourne Econ Seminars//EN".data,
        "CALSCALE:GREGORIAN".data, "BEGIN:VEVENT".data,
        "UID:".data ++ (if e.uid = "" then
          natDec now.toNat ++ "@melb-econ-seminars".data else e.uid.data),
        "DTSTAMP:".data ++ formatICSDate now,
        "DTSTART:".data ++ formatICSDate e.start] ++
      (match e.endTime with
        | none => []
        | some t2 => ["DTEND:".data ++ formatICSDate t2]) ++
      ["SUMMARY:".data ++ escapeText e.summary.data] ++
      (if e.description = "" then []
        else ["DESCRIPTION:".data ++ escapeText e.description.data]) ++
      (if e.location = "" then []
        else ["LOCATION:".data ++ escapeText e.location.data]) ++
      ["END:VEVENT".data, "END:VCALENDAR".data] := by
  unfold genLines
  rcases e.endTime with _ | t2 <;>
    by_cases hdesc : e.description = "" <;>
      by_cases hloc : e.location = "" <;>
        simp [hdesc, hloc, List.filter_cons,
          isEmpty_str_append "UID:" (by decide),
          isEmpty_str_append "DTSTAMP:" (by decide),
          isEmpty_str_append "DTSTART:" (by decide),
          isEmpty_str_append "DTEND:" (by decide),
          isEmpty_str_append "SUMMARY:" (by decide),
          isEmpty_str_append "DESCRIPTION:" (by decide),
          isEmpty_str_append "LOCATION:" (by decide),
          isEmpty_str "BEGIN:VCALENDAR" (by decide),
          isEmpty_str "VERSION:2.0" (by decide),
          isEmpty_str "PRODID:-//Melbourne Econ Seminars//EN" (by decide),
          isEmpty_str "CALSCALE:GREGORIAN" (by decide),
          isEmpty_str "BEGIN:VEVENT" (by decide),
          isEmpty_str "END:VEVENT" (by decide),
          isEmpty_str "END:VCALENDAR" (by decide)]

/-! ## Parser structure lemmas (C9) -/

theorem parseLines_eq_vevBlocks (off : Int) (src : String)
    (ls : List (List Char)) :
    ∀ acc : Option (List (List Char)),
      parseLines off src ls
        (acc.map fun a => a.reverse.foldl (addProp off) emptyRaw) =
      (vevBlocks acc ls).filterMap (buildEvent off src) := by
  induction ls with
  | nil => intro acc; cases acc <;> rfl
  | cons l rest ih =>
    intro acc
    cases acc with
    | none =>
      by_cases hb : l = "BEGIN:VEVENT".data
      · simp only [Option.map_none, parseLines, vevBlocks, hb, if_true]
        simpa using ih (some [])
      · simp only [Option.map_none, parseLines, vevBlocks, if_neg hb]
        simpa using ih none
    | some acc =>
      by_cases hb : l = "END:VEVENT".data
      · simp only [Option.map_some', parseLines, vevBlocks, hb, if_true,
          List.filterMap_cons]
        show (match finishEvent src (acc.reverse.foldl (addProp off) emptyRaw)
            with
          | none => parseLines off src rest none
          | some e => e :: parseLines off src rest none) = _
        cases hf : finishEvent src (acc.reverse.foldl (addProp off) emptyRaw)
          with
        | none =>
          simp only [buildEvent, hf]
          simpa using ih none
        | some e =>
          simp only [buildEvent, hf]
          exact congrArg (fun x => e :: x) (ih none)
      · simp only [Option.map_some', parseLines, vevBlocks, if_neg hb]
        have h2 := ih (some (l :: acc))
        simp only [Option.map_some', List.reverse_cons, List.foldl_append,
          List.foldl_cons, List.foldl_nil] at h2
        exact h2

theorem addProp_summary_none (off : Int) (raw : RawEvent) (l : List Char)
    (h : ∀ v, propNameValue l ≠ some ("SUMMARY".data, v))
    (h2 : raw.summary = none) : (addProp off raw l).summary = none := by
  cases hp : propNameValue l with
  | none => simpa [addProp, hp] using h2
  | some nv =>
    obtain ⟨name, value⟩ := nv
    have hs : name ≠ "SUMMARY".data := by
      intro hc
      exact h value (by rw [hp, hc])
    simp only [addProp, hp]
    split_ifs
    · exact h2
    · exact h2
    · exact h2
    · split <;> exact h2
    · split <;> exact h2
    · exact h2

theorem addProp_start_none (off : Int) (raw : RawEvent) (l : List Char)
    (h : ∀ v, propNameValue l ≠ some ("DTSTART".data, v))
    (h2 : raw.start = none) : (addProp off raw l).start = none := by
  cases hp : propNameValue l with
  | none => simpa [addProp, hp] using h2
  | some nv =>
    obtain ⟨name, value⟩ := nv
    have hs : name ≠ "DTSTART".data := by
      intro hc
      exact h value (by rw [hp, hc])
    simp only [addProp, hp]
    split_ifs
    · exact h2
    · exact h2
    · exact h2
    · exact h2
    · split <;> exact h2
    · exact h2

theorem foldl_addProp_summary (off : Int) (b : List (List Char))
    (h : ∀ l ∈ b, ∀ v, propNameValue l ≠ some ("SUMMARY".data, v)) :
    ∀ raw : RawEvent, raw.summary = none →
      (b.foldl (addProp off) raw).summary = none := by
  induction b with
  | nil => exact fun raw h2 => h2
  | cons l rest ih =>
    intro raw h2
    rw [List.foldl_cons]
    exact ih (fun x hx v => h x (List.mem_cons_of_mem _ hx) v) _
      (addProp_summary_none off raw l (fun v => h l (List.mem_cons_self _ _) v)
        h2)

theorem foldl_addProp_start (off : Int) (b : List (List Char))
    (h : ∀ l ∈ b, ∀ v, propNameValue l ≠ some ("DTSTART".data, v)) :
    ∀ raw : RawEvent, raw.start = none →
      (b.foldl (addProp off) raw).start = none := by
  induction b with
  | nil => exact fun raw h2 => h2
  | cons l rest ih =>
    intro raw h2
    rw [List.foldl_cons]
    exact ih (fun x hx v => h x (List.mem_cons_of_mem _ hx) v) _
      (addProp_start_none off raw l (fun v => h l (List.mem_cons_self _ _) v)
        h2)

/-- C9: for every input text, the parser is the per-block filterMap of the
VEVENT blocks — a block missing `SUMMARY` or missing `DTSTART` contributes
nothing while every other block in the same text is still processed — and,
concretely, any block with no SUMMARY property line and any block with no
DTSTART property line yields no event (the parser is a total function, so no
input raises an error). -/
theorem parseICS_omits_invalid_blocks (off : Int) (text : List Char)
    (src : String) :
    parseICS off text src =
      (vevBlocks none (unfoldLines (splitLinesCR text))).filterMap
        (buildEvent off src) ∧
    (∀ b : List (List Char),
      (∀ l ∈ b, ∀ v, propNameValue l ≠ some ("SUMMARY".data, v)) →
        buildEvent off src b = none) ∧
    (∀ b : List (List Char),
      (∀ l ∈ b, ∀ v, propNameValue l ≠ some ("DTSTART".data, v)) →
        buildEvent off src b = none) := by
  refine ⟨?_, ?_, ?_⟩
  · exact parseLines_eq_vevBlocks off src (unfoldLines (splitLinesCR text))
      none
  · intro b h
    unfold buildEvent finishEvent
    rw [foldl_addProp_summary off b h emptyRaw rfl]
  · intro b h
    unfold buildEvent finishEvent
    rw [foldl_addProp_start off b h emptyRaw rfl]
    split <;> simp_all

/-- Witness for `parseICS_omits_invalid_blocks`: a three-block text whose
middle block lacks a SUMMARY; the two surrounding valid blocks still parse,
and the theorem's omission clauses apply to the middle block. -/
theorem parseICS_omits_invalid_blocks_witness :
    ((parseICS 0 ("BEGIN:VEVENT\r\nSUMMARY:A\r\nDTSTART:20250115T090000Z\r\n" ++
        "END:VEVENT\r\nBEGIN:VEVENT\r\nDTSTART:20250116T090000Z\r\n" ++
        "END:VEVENT\r\nBEGIN:VEVENT\r\nSUMMARY:B\r\n" ++
        "DTSTART:20250117T090000Z\r\nEND:VEVENT").data "s").map
      Event.summary = ["A", "B"]) ∧
    buildEvent 0 "s" ["DTSTART:20250116T090000Z".data] = none := by
  constructor
  · decide
  · refine (parseICS_omits_invalid_blocks 0 [] "s").2.1
      ["DTSTART:20250116T090000Z".data] ?_
    intro l hl v hc
    rw [List.mem_singleton] at hl
    subst hl
    rw [show propNameValue "DTSTART:20250116T090000Z".data =
      some ("DTSTART".data, "20250116T090000Z".data) from by decide] at hc
    simp only [Option.some.injEq, Prod.mk.injEq] at hc
    exact absurd hc.1 (by decide)

/-- C10: the list-sections derivation neither drops nor duplicates events —
the event records of its output, in order, are exactly the input sequence —
and at every emitted event record the most recent month, week and day
markers preceding it carry exactly that event's identifiers. -/
theorem groupedListEvents_events_and_markers (off : Int) (l : List Event) :
    (groupedListEvents off l).filterMap getEventData = l ∧
      wellMarked off none none none (groupedListEvents off l) = true := by
  have h := groupGo_eq_byPrev off none l
  rw [groupedListEvents]
  constructor
  · rw [show (⟨none, none, none⟩ : GState) = stateOf off none from rfl, h]
    exact groupByPrev_filterMap off none l
  · rw [show (⟨none, none, none⟩ : GState) = stateOf off none from rfl, h]
    exact groupByPrev_wellMarked off none l


/-! ## Generated-calendar structure lemmas (C8) -/

theorem nl_not_mem_formatICSDate (t : Int) : '\n' ∉ formatICSDate t := by
  intro hm
  rw [formatICSDate] at hm
  simp only [pad4, pad2, List.cons_append, List.nil_append, List.mem_cons,
    List.mem_append, List.mem_singleton] at hm
  rcases hm with h | h | h | h | h | h | h | h | h | h | h | h | h | h | h | h
  all_goals first
    | (exact digitCh_ne_nl _ h.symm)
    | (exact absurd h (by decide))

theorem genLines_filter2 (now : Int) (e : Event) :
    (genLines now e).filter (fun l => !l.isEmpty) =
      keptLinesOf now e ++ ["END:VCALENDAR".data] := by
  rw [genLines_filter]
  simp [keptLinesOf, vevPropLines, uidValOf, endSegOf, descSegOf, locSegOf]

theorem nl_not_mem_uidValOf (now : Int) (e : Event)
    (h : '\n' ∉ e.uid.data) : '\n' ∉ uidValOf now e := by
  unfold uidValOf
  split_ifs
  · intro hm
    rcases List.mem_append.mp hm with hm2 | hm2
    · exact nl_not_mem_natDec _ hm2
    · exact absurd hm2 (by decide)
  · exact h

theorem endSegOf_nl (e : Event) : ∀ l ∈ endSegOf e, '\n' ∉ l := by
  intro l hl
  cases hET : e.endTime with
  | none =>
    simp only [endSegOf, hET] at hl
    exact absurd hl (List.not_mem_nil _)
  | some t2 =>
    simp only [endSegOf, hET] at hl
    have hl2 : l = "DTEND:".data ++ formatICSDate t2 := List.mem_singleton.mp hl
    subst hl2
    intro hm
    rcases List.mem_append.mp hm with h2 | h2
    · exact absurd h2 (by decide)
    · exact nl_not_mem_formatICSDate t2 h2

theorem descSegOf_nl (e : Event) : ∀ l ∈ descSegOf e, '\n' ∉ l := by
  intro l hl
  unfold descSegOf at hl
  split_ifs at hl
  · exact absurd hl (List.not_mem_nil _)
  · have hl2 : l = "DESCRIPTION:".data ++ escapeText e.description.data :=
      List.mem_singleton.mp hl
    subst hl2
    intro hm
    rcases List.mem_append.mp hm with h2 | h2
    · exact absurd h2 (by decide)
    · exact nl_not_mem_escapeText _ h2

theorem locSegOf_nl (e : Event) : ∀ l ∈ locSegOf e, '\n' ∉ l := by
  intro l hl
  unfold locSegOf at hl
  split_ifs at hl
  · exact absurd hl (List.not_mem_nil _)
  · have hl2 : l = "LOCATION:".data ++ escapeText e.location.data :=
      List.mem_singleton.mp hl
    subst hl2
    intro hm
    rcases List.mem_append.mp hm with h2 | h2
    · exact absurd h2 (by decide)
    · exact nl_not_mem_escapeText _ h2

theorem vevPropLines_nl (now : Int) (e : Event) (h : '\n' ∉ e.uid.data) :
    ∀ l ∈ vevPropLines now e, '\n' ∉ l := by
  intro l hl
  simp only [vevPropLines, List.mem_append, List.mem_cons,
    List.not_mem_nil, or_false] at hl
  rcases hl with ((((rfl | rfl | rfl) | hE) | rfl) | hD) | hL
  · intro hm
    rcases List.mem_append.mp hm with h2 | h2
    · exact absurd h2 (by decide)
    · exact nl_not_mem_uidValOf now e h h2
  · intro hm
    rcases List.mem_append.mp hm with h2 | h2
    · exact absurd h2 (by decide)
    · exact nl_not_mem_formatICSDate now h2
  · intro hm
    rcases List.mem_append.mp hm with h2 | h2
    · exact absurd h2 (by decide)
    · exact nl_not_mem_formatICSDate e.start h2
  · exact endSegOf_nl e l hE
  · intro hm
    rcases List.mem_append.mp hm with h2 | h2
    · exact absurd h2 (by decide)
    · exact nl_not_mem_escapeText _ h2
  · exact descSegOf_nl e l hD
  · exact locSegOf_nl e l hL

theorem keptLinesOf_nl (now : Int) (e : Event) (h : '\n' ∉ e.uid.data) :
    ∀ l ∈ keptLinesOf now e, '\n' ∉ l := by
  intro l hl
  simp only [keptLinesOf, List.mem_cons, List.mem_append,
    List.not_mem_nil, or_false, List.mem_singleton] at hl
  rcases hl with rfl | rfl | rfl | rfl | rfl | hl2 | rfl
  · decide
  · decide
  · decide
  · decide
  · decide
  · exact vevPropLines_nl now e h l hl2
  · decide

theorem endSegOf_isCont (e : Event) : ∀ l ∈ endSegOf e, isCont l = false := by
  intro l hl
  cases hET : e.endTime with
  | none =>
    simp only [endSegOf, hET] at hl
    exact absurd hl (List.not_mem_nil _)
  | some t2 =>
    simp only [endSegOf, hET] at hl
    have hl2 : l = "DTEND:".data ++ formatICSDate t2 := List.mem_singleton.mp hl
    subst hl2
    rw [isCont_append _ _ (by decide)]
    decide

theorem descSegOf_isCont (e : Event) : ∀ l ∈ descSegOf e, isCont l = false := by
  intro l hl
  unfold descSegOf at hl
  split_ifs at hl
  · exact absurd hl (List.not_mem_nil _)
  · have hl2 : l = "DESCRIPTION:".data ++ escapeText e.description.data :=
      List.mem_singleton.mp hl
    subst hl2
    rw [isCont_append _ _ (by decide)]
    decide

theorem locSegOf_isCont (e : Event) : ∀ l ∈ locSegOf e, isCont l = false := by
  intro l hl
  unfold locSegOf at hl
  split_ifs at hl
  · exact absurd hl (List.not_mem_nil _)
  · have hl2 : l = "LOCATION:".data ++ escapeText e.location.data :=
      List.mem_singleton.mp hl
    subst hl2
    rw [isCont_append _ _ (by decide)]
    decide

theorem keptLinesOf_isCont (now : Int) (e : Event) :
    ∀ l ∈ keptLinesOf now e, isCont l = false := by
  intro l hl
  simp only [keptLinesOf, vevPropLines, List.mem_cons, List.mem_append,
    List.not_mem_nil, or_false, List.mem_singleton] at hl
  rcases hl with rfl | rfl | rfl | rfl | rfl | (((((rfl | rfl | rfl) | hE) | rfl) | hD) | hL) | rfl
  · decide
  · decide
  · decide
  · decide
  · decide
  · rw [isCont_append _ _ (by decide)]
    decide
  · rw [isCont_append _ _ (by decide)]
    decide
  · rw [isCont_append _ _ (by decide)]
    decide
  · exact endSegOf_isCont e l hE
  · rw [isCont_append _ _ (by decide)]
    decide
  · exact descSegOf_isCont e l hD
  · exact locSegOf_isCont e l hL
  · decide

theorem endSegOf_ne_end (e : Event) :
    ∀ l ∈ endSegOf e, l ≠ "END:VEVENT".data := by
  intro l hl
  cases hET : e.endTime with
  | none =>
    simp only [endSegOf, hET] at hl
    exact absurd hl (List.not_mem_nil _)
  | some t2 =>
    simp only [endSegOf, hET] at hl
    have hl2 : l = "DTEND:".data ++ formatICSDate t2 := List.mem_singleton.mp hl
    subst hl2
    exact append_head_ne (by decide) _ _ _

theorem descSegOf_ne_end (e : Event) :
    ∀ l ∈ descSegOf e, l ≠ "END:VEVENT".data := by
  intro l hl
  unfold descSegOf at hl
  split_ifs at hl
  · exact absurd hl (List.not_mem_nil _)
  · have hl2 : l = "DESCRIPTION:".data ++ escapeText e.description.data :=
      List.mem_singleton.mp hl
    subst hl2
    exact append_head_ne (by decide) _ _ _

theorem locSegOf_ne_end (e : Event) :
    ∀ l ∈ locSegOf e, l ≠ "END:VEVENT".data := by
  intro l hl
  unfold locSegOf at hl
  split_ifs at hl
  · exact absurd hl (List.not_mem_nil _)
  · have hl2 : l = "LOCATION:".data ++ escapeText e.location.data :=
      List.mem_singleton.mp hl
    subst hl2
    exact append_head_ne (by decide) _ _ _

theorem vevPropLines_ne_end (now : Int) (e : Event) :
    ∀ l ∈ vevPropLines now e, l ≠ "END:VEVENT".data := by
  intro l hl
  simp only [vevPropLines, List.mem_append, List.mem_cons,
    List.not_mem_nil, or_false] at hl
  rcases hl with ((((rfl | rfl | rfl) | hE) | rfl) | hD) | hL
  · exact append_head_ne (by decide) _ _ _
  · exact append_head_ne (by decide) _ _ _
  · exact append_head_ne (by decide) _ _ _
  · exact endSegOf_ne_end e l hE
  · exact append_head_ne (by decide) _ _ _
  · exact descSegOf_ne_end e l hD
  · exact locSegOf_ne_end e l hL

theorem foldl_endSegOf (off : Int) (e : Event)
    (hend : ∀ t2, e.endTime = some t2 →
      0 ≤ t2 ∧ t2 < 253402300800000 ∧ t2 % 1000 = 0) :
    ∀ raw : RawEvent, (endSegOf e).foldl (addProp off) raw =
      match e.endTime with
      | none => raw
      | some t2 => { raw with endTime := some t2 } := by
  intro raw
  cases hET : e.endTime with
  | none => simp [endSegOf, hET]
  | some t2 =>
    obtain ⟨a, b, c⟩ := hend t2 hET
    have ha : addProp off raw ("DTEND:".data ++ formatICSDate t2) =
        { raw with endTime := some t2 } :=
      addProp_dtend off raw _ t2 (parseICSDate_formatICSDate off t2 a b c)
    simp only [endSegOf, hET, List.foldl_cons, List.foldl_nil, ha]

theorem foldl_descSegOf (off : Int) (e : Event) :
    ∀ raw : RawEvent, (descSegOf e).foldl (addProp off) raw =
      if e.description = "" then raw
      else { raw with description := some e.description.data } := by
  intro raw
  by_cases hd : e.description = ""
  · simp [descSegOf, hd]
  · have ha : addProp off raw
        ("DESCRIPTION:".data ++ escapeText e.description.data) =
        { raw with
          description := some (unescapeText (escapeText e.description.data)) } :=
      addProp_description_line off raw _
    rw [unescapeText_escapeText] at ha
    simp only [descSegOf, if_neg hd, List.foldl_cons, List.foldl_nil, ha]

theorem foldl_locSegOf (off : Int) (e : Event) :
    ∀ raw : RawEvent, (locSegOf e).foldl (addProp off) raw =
      if e.location = "" then raw
      else { raw with location := some e.location.data } := by
  intro raw
  by_cases hl : e.location = ""
  · simp [locSegOf, hl]
  · have ha : addProp off raw
        ("LOCATION:".data ++ escapeText e.location.data) =
        { raw with
          location := some (unescapeText (escapeText e.location.data)) } :=
      addProp_location_line off raw _
    rw [unescapeText_escapeText] at ha
    simp only [locSegOf, if_neg hl, List.foldl_cons, List.foldl_nil, ha]

theorem foldl_vevPropLines (off now : Int) (e : Event)
    (h0 : 0 ≤ e.start) (h1 : e.start < 253402300800000)
    (h2 : e.start % 1000 = 0)
    (hend : ∀ t2, e.endTime = some t2 →
      0 ≤ t2 ∧ t2 < 253402300800000 ∧ t2 % 1000 = 0) :
    (vevPropLines now e).foldl (addProp off) emptyRaw =
      ⟨some (uidValOf now e), some e.summary.data,
        (if e.description = "" then none else some e.description.data),
        (if e.location = "" then none else some e.location.data),
        some e.start, e.endTime⟩ := by
  have hPS : parseICSDate off (formatICSDate e.start) = some e.start :=
    parseICSDate_formatICSDate off e.start h0 h1 h2
  have auid : ∀ r : RawEvent, addProp off r ("UID:".data ++ uidValOf now e) =
      { r with uid := some (uidValOf now e) } := fun r => addProp_uid off r _
  have astm : ∀ r : RawEvent,
      addProp off r ("DTSTAMP:".data ++ formatICSDate now) = r :=
    fun r => addProp_dtstamp off r _
  have astt : ∀ r : RawEvent,
      addProp off r ("DTSTART:".data ++ formatICSDate e.start) =
        { r with start := some e.start } :=
    fun r => addProp_dtstart off r _ e.start hPS
  have asum : ∀ r : RawEvent,
      addProp off r ("SUMMARY:".data ++ escapeText e.summary.data) =
        { r with summary := some e.summary.data } := by
    intro r
    have h3 := addProp_summary_line off r (escapeText e.summary.data)
    rw [unescapeText_escapeText] at h3
    exact h3
  simp only [vevPropLines, List.foldl_append, List.foldl_cons,
    List.foldl_nil, auid, astm, astt, asum, foldl_endSegOf off e hend,
    foldl_descSegOf off e, foldl_locSegOf off e]
  cases e.endTime <;> by_cases hd : e.description = "" <;>
    by_cases hl : e.location = "" <;> simp [hd, hl, emptyRaw]


/-- C8: counterexample to the claimed round-trip. `formatICSDate` truncates
the milliseconds part of the timestamp (`toISOString().split('.')[0]`), so
the valid event `evC8` starting 500 ms after the epoch is re-parsed with
start 0 — the round-trip does not preserve `start` for every valid event. -/
theorem generateICS_roundtrip_counterexample :
    (parseICS 0 (generateICS 0 evC8) "s").map Event.start = [0] ∧
      evC8.start = 500 := by
  decide

/-- C8 (amended): serializing an event with `generateICS` and re-parsing the
text with `parseICS` yields exactly one event whose summary, start, end,
location and description equal those of the original, for every event whose
summary is non-empty, whose start (and end, when present) is a whole-second
timestamp in the range the `YYYYMMDDTHHMMSSZ` format can represent
(nonnegative and before year 10000), and whose stored UID contains no
newline character. -/
theorem generateICS_parseICS_roundtrip (off now : Int) (src : String)
    (e : Event) (hsum : e.summary ≠ "")
    (h0 : 0 ≤ e.start) (h1 : e.start < 253402300800000)
    (h2 : e.start % 1000 = 0)
    (hend : ∀ t2, e.endTime = some t2 →
      0 ≤ t2 ∧ t2 < 253402300800000 ∧ t2 % 1000 = 0)
    (huid : '\n' ∉ e.uid.data) :
    ∃ e2, parseICS off (generateICS now e) src = [e2] ∧
      e2.summary = e.summary ∧ e2.start = e.start ∧
      e2.endTime = e.endTime ∧ e2.location = e.location ∧
      e2.description = e.description ∧ e2.source = src := by
  have hcont : ∀ l ∈ keptLinesOf now e ++ ["END:VCALENDAR".data],
      isCont l = false := by
    intro l hl
    rcases List.mem_append.mp hl with h3 | h3
    · exact keptLinesOf_isCont now e l h3
    · have h4 := List.mem_singleton.mp h3
      subst h4
      decide
  have hmain : parseICS off (generateICS now e) src =
      [⟨String.mk (uidValOf now e), src, String.mk e.summary.data,
        String.mk ((if e.description = "" then none
          else some e.description.data).getD []),
        String.mk ((if e.location = "" then none
          else some e.location.data).getD []),
        e.start, e.endTime⟩] := by
    rw [parseICS, generateICS, genLines_filter2,
      splitLinesCR_joinCRLF _ _ (keptLinesOf_nl now e huid)
        (by decide) (by decide),
      unfoldLines_of_no_cont _ hcont]
    simp only [keptLinesOf, List.cons_append]
    rw [parseLines_skip off src "BEGIN:VCALENDAR".data _ (by decide),
      parseLines_skip off src "VERSION:2.0".data _ (by decide),
      parseLines_skip off src "PRODID:-//Melbourne Econ Seminars//EN".data _
        (by decide),
      parseLines_skip off src "CALSCALE:GREGORIAN".data _ (by decide),
      parseLines_begin]
    have hsh : (vevPropLines now e ++ ["END:VEVENT".data]) ++
        ["END:VCALENDAR".data] =
        vevPropLines now e ++ "END:VEVENT".data :: ["END:VCALENDAR".data] := by
      simp
    rw [hsh, parseLines_props off src _ _ _ (vevPropLines_ne_end now e),
      foldl_vevPropLines off now e h0 h1 h2 hend,
      parseLines_skip off src "END:VCALENDAR".data _ (by decide)]
    rw [show parseLines off src [] none = [] from rfl]
    simp [finishEvent, isEmpty_str e.summary hsum]
  refine ⟨_, hmain, ?_, rfl, rfl, ?_, ?_, rfl⟩
  · exact strMk_data e.summary
  · by_cases hl : e.location = ""
    · rw [hl]
      rfl
    · simp only [hl, if_false]
      exact strMk_data e.location
  · by_cases hd : e.description = ""
    · rw [hd]
      rfl
    · simp only [hd, if_false]
      exact strMk_data e.description


/-- C8 witness: the amended round-trip at a concrete fully-populated event,
in the Melbourne zone (UTC+11). -/
theorem generateICS_parseICS_roundtrip_witness :
    ∃ e2, parseICS 39600000 (generateICS 1737000000000 evC8w) "s" = [e2] ∧
      e2.summary = evC8w.summary ∧ e2.start = evC8w.start ∧
      e2.endTime = evC8w.endTime ∧ e2.location = evC8w.location ∧
      e2.description = evC8w.description ∧ e2.source = "s" :=
  generateICS_parseICS_roundtrip 39600000 1737000000000 "s" evC8w
    (by decide) (by decide) (by decide) (by decide)
    (fun t2 ht => by cases ht; decide)
    (by decide)

end MelbEcon
